import Mathlib

/-!
Verification of the blog backend handlers (users, categories, posts, tags,
post-tag junction, threaded comments).

The relational store is embedded shallowly: each table is a list of records,
timestamps are naturals (the current time is passed explicitly as `now`),
serial primary keys are modelled by `freshId` (one more than the largest id
in the table), and a handler that throws is a function into `Except String`.
The database-level unique constraints declared in the drizzle schema
(users.email, users.username, categories.name, categories.slug, posts.slug,
tags.name, tags.slug) are enforced by the insert operations, mirroring the
storage-layer backstop; the `post_tags` table declares no pair constraint,
so its insert never rejects.

The recursive comment-subtree deletion is embedded with an explicit fuel
parameter; on well-formed stores (distinct ids, parent ids smaller than
child ids, as produced by serial keys and the parent-exists check of
`createComment`) the chosen fuel is always sufficient, so the embedding
computes exactly what the unbounded recursion of the source computes.
-/

namespace Blog

/-- Media type enum from the drizzle schema (`mediaTypeEnum`). -/
inductive MediaType
  | text
  | image
  | video
deriving DecidableEq, Repr

/-- Post status enum from the drizzle schema (`postStatusEnum`). -/
inductive PostStatus
  | draft
  | published
  | archived
deriving DecidableEq, Repr

/-- Row of `usersTable`. -/
structure User where
  id : Nat
  email : String
  username : String
  password_hash : String
  full_name : String
  bio : Option String
  avatar_url : Option String
  is_verified : Bool
  created_at : Nat
  updated_at : Nat
deriving DecidableEq, Repr

/-- Row of `categoriesTable`. -/
structure Category where
  id : Nat
  name : String
  slug : String
  description : Option String
  color : String
  created_at : Nat
deriving DecidableEq, Repr

/-- Row of `postsTable`. -/
structure Post where
  id : Nat
  title : String
  slug : String
  content : String
  excerpt : Option String
  featured_image_url : Option String
  media_type : MediaType
  media_url : Option String
  status : PostStatus
  published_at : Option Nat
  author_id : Nat
  category_id : Option Nat
  view_count : Nat
  like_count : Nat
  created_at : Nat
  updated_at : Nat
deriving DecidableEq, Repr

/-- Row of `tagsTable`. -/
structure Tag where
  id : Nat
  name : String
  slug : String
  created_at : Nat
deriving DecidableEq, Repr

/-- Row of `postTagsTable` (post-tag junction). -/
structure PostTag where
  id : Nat
  post_id : Nat
  tag_id : Nat
  created_at : Nat
deriving DecidableEq, Repr

/-- Row of `commentsTable`. `parent_id` is the nullable self-reference used
for threading; the schema declares no foreign key on it. -/
structure Comment where
  id : Nat
  content : String
  author_name : String
  author_email : String
  author_website : Option String
  post_id : Nat
  parent_id : Option Nat
  is_approved : Bool
  created_at : Nat
  updated_at : Nat
deriving DecidableEq, Repr

/-- The whole relational store: one list per table. -/
structure Store where
  users : List User
  categories : List Category
  posts : List Post
  tags : List Tag
  postTags : List PostTag
  comments : List Comment
deriving DecidableEq, Repr

/-- `createUserInputSchema`. `bio` and `avatar_url` are nullable-optional;
null and absent are collapsed into `none`. -/
structure CreateUserInput where
  email : String
  username : String
  full_name : String
  password : String
  bio : Option String
  avatar_url : Option String
deriving DecidableEq, Repr

/-- `createCategoryInputSchema`. -/
structure CreateCategoryInput where
  name : String
  slug : String
  description : Option String
  color : String
deriving DecidableEq, Repr

/-- `createTagInputSchema`. -/
structure CreateTagInput where
  name : String
  slug : String
deriving DecidableEq, Repr

/-- `createPostInputSchema`. -/
structure CreatePostInput where
  title : String
  slug : String
  content : String
  excerpt : Option String
  featured_image_url : Option String
  media_type : MediaType
  media_url : Option String
  status : PostStatus
  category_id : Option Nat
  author_id : Nat
deriving DecidableEq, Repr

/-- `updatePostInputSchema`. A field typed `Option (Option α)` is
nullable-optional: the outer `Option` records whether the field was provided
at all (`undefined` in the source), the inner one whether it was null. -/
structure UpdatePostInput where
  id : Nat
  title : Option String
  slug : Option String
  content : Option String
  excerpt : Option (Option String)
  featured_image_url : Option (Option String)
  media_type : Option MediaType
  media_url : Option (Option String)
  status : Option PostStatus
  category_id : Option (Option Nat)
deriving DecidableEq, Repr

/-- `updateUserInputSchema`. -/
structure UpdateUserInput where
  id : Nat
  username : Option String
  full_name : Option String
  bio : Option (Option String)
  avatar_url : Option (Option String)
deriving DecidableEq, Repr

/-- `addTagToPostInputSchema` (also the input of `removeTagFromPost`). -/
structure AddTagToPostInput where
  post_id : Nat
  tag_id : Nat
deriving DecidableEq, Repr

/-- `createCommentInputSchema`. -/
structure CreateCommentInput where
  content : String
  author_name : String
  author_email : String
  author_website : Option String
  post_id : Nat
  parent_id : Option Nat
deriving DecidableEq, Repr

/-- JavaScript `x || null` on a string-or-null-or-undefined value: the empty
string is falsy, so it collapses to null as well. -/
def orNull (o : Option String) : Option String :=
  match o with
  | some s => if s = "" then none else some s
  | none => none

/-- JavaScript `x || null` on a number-or-null-or-undefined value: `0` is
falsy, so it collapses to null. -/
def orNullNat (o : Option Nat) : Option Nat :=
  match o with
  | some n => if n = 0 then none else some n
  | none => none

/-- JavaScript truthiness of a number-or-null-or-undefined value, as used by
`if (input.parent_id)` in `createComment`: null, undefined and `0` are falsy. -/
def truthyNat (o : Option Nat) : Bool :=
  match o with
  | some n => n != 0
  | none => false

/-- Largest element of a list of ids (0 when empty). -/
def maxIds (l : List Nat) : Nat := l.foldr max 0

/-- Serial primary key generation: one more than the largest id in use. -/
def freshId (l : List Nat) : Nat := maxIds l + 1

/-- Error message produced by the storage layer on a unique-constraint
violation (matched by the repository tests with
/duplicate key value violates unique constraint/i). -/
def dupKeyMsg : String := "duplicate key value violates unique constraint"

/-- `hashPassword` from `create_user.ts`. The SHA-256 digest computation is
opaque to this model; no claim depends on the digest value, so it is embedded
as the identity on the password string. -/
def hashPassword (password : String) : String := password

/-- `createUser` from `src/server/src/handlers/create_user.ts`: hashes the
password and inserts directly; duplicate email or username is rejected by the
storage layer (the declared unique constraints), not by an explicit
pre-check. -/
def createUser (s : Store) (inp : CreateUserInput) (now : Nat) :
    Except String (User × Store) :=
  if s.users.any (fun u => u.email == inp.email || u.username == inp.username) then
    Except.error dupKeyMsg
  else
    let u : User :=
      { id := freshId (s.users.map (·.id))
        email := inp.email
        username := inp.username
        password_hash := hashPassword inp.password
        full_name := inp.full_name
        bio := orNull inp.bio
        avatar_url := orNull inp.avatar_url
        is_verified := false
        created_at := now
        updated_at := now }
    Except.ok (u, { s with users := s.users ++ [u] })

/-- Modelled from the spec: the `createCategory` handler present in the
repository is a placeholder, so the real handler is missing from the sources.
Per the spec (data model §3 and testable property 7) and the repository's
`create_category.test.ts`, it inserts the category and a duplicate name or
slug is rejected with the storage layer's unique-constraint error. -/
def createCategory (s : Store) (inp : CreateCategoryInput) (now : Nat) :
    Except String (Category × Store) :=
  if s.categories.any (fun c => c.name == inp.name || c.slug == inp.slug) then
    Except.error dupKeyMsg
  else
    let c : Category :=
      { id := freshId (s.categories.map (·.id))
        name := inp.name
        slug := inp.slug
        description := inp.description
        color := inp.color
        created_at := now }
    Except.ok (c, { s with categories := s.categories ++ [c] })

/-- Modelled from the spec: the `createTag` handler present in the repository
is a placeholder, so the real handler is missing from the sources. Per the
spec (data model §3), it inserts the tag and a duplicate name or slug is
rejected with the storage layer's unique-constraint error. -/
def createTag (s : Store) (inp : CreateTagInput) (now : Nat) :
    Except String (Tag × Store) :=
  if s.tags.any (fun t => t.name == inp.name || t.slug == inp.slug) then
    Except.error dupKeyMsg
  else
    let t : Tag :=
      { id := freshId (s.tags.map (·.id))
        name := inp.name
        slug := inp.slug
        created_at := now }
    Except.ok (t, { s with tags := s.tags ++ [t] })

/-- Slug check and insert of `createPost` (the part after the author and
category checks in `src/server/src/handlers/create_post.ts`). -/
def createPostCore (s : Store) (inp : CreatePostInput) (now : Nat) :
    Except String (Post × Store) :=
  if s.posts.any (fun p => p.slug == inp.slug) then
    Except.error ("Post with slug \x27" ++ inp.slug ++ "\x27 already exists")
  else
    let publishedAt := if inp.status = PostStatus.published then some now else none
    let p : Post :=
      { id := freshId (s.posts.map (·.id))
        title := inp.title
        slug := inp.slug
        content := inp.content
        excerpt := orNull inp.excerpt
        featured_image_url := orNull inp.featured_image_url
        media_type := inp.media_type
        media_url := orNull inp.media_url
        status := inp.status
        published_at := publishedAt
        author_id := inp.author_id
        category_id := orNullNat inp.category_id
        view_count := 0
        like_count := 0
        created_at := now
        updated_at := now }
    Except.ok (p, { s with posts := s.posts ++ [p] })

/-- `createPost` from `src/server/src/handlers/create_post.ts`: checks the
author exists, the category (when provided and non-null) exists, and the slug
is unused; sets `published_at` to the current time exactly when the status at
creation is `published`. -/
def createPost (s : Store) (inp : CreatePostInput) (now : Nat) :
    Except String (Post × Store) :=
  if !(s.users.any (fun u => u.id == inp.author_id)) then
    Except.error ("Author with id " ++ toString inp.author_id ++ " does not exist")
  else
    match inp.category_id with
    | some cid =>
        if !(s.categories.any (fun c => c.id == cid)) then
          Except.error ("Category with id " ++ toString cid ++ " does not exist")
        else
          createPostCore s inp now
    | none => createPostCore s inp now

/-- The record update performed by `updatePost` in
`src/unnamed/part_002`: `updated_at` is always refreshed, each provided field
overwrites the stored one, and `published_at` is overwritten with the current
time exactly when `stamp` holds (the status is being set to `published` while
the current status is not `published`). -/
def applyPostUpdate (inp : UpdatePostInput) (now : Nat) (stamp : Bool) (q : Post) : Post :=
  { q with
    updated_at := now
    title := inp.title.getD q.title
    slug := inp.slug.getD q.slug
    content := inp.content.getD q.content
    excerpt := inp.excerpt.getD q.excerpt
    featured_image_url := inp.featured_image_url.getD q.featured_image_url
    media_type := inp.media_type.getD q.media_type
    media_url := inp.media_url.getD q.media_url
    status := inp.status.getD q.status
    category_id := inp.category_id.getD q.category_id
    published_at := if stamp then some now else q.published_at }

/-- The update-and-return part of `updatePost`: computes whether
`published_at` must be stamped from the current row, applies the update to
every row with the target id, and returns the (first) updated row. -/
def updatePostApply (s : Store) (inp : UpdatePostInput) (now : Nat) (cur : Post) :
    Except String (Post × Store) :=
  let stamp := inp.status == some PostStatus.published && !(cur.status == PostStatus.published)
  Except.ok (applyPostUpdate inp now stamp cur,
    { s with posts := s.posts.map (fun q =>
        if q.id == inp.id then applyPostUpdate inp now stamp q else q) })

/-- `updatePost` from `src/unnamed/part_002`: checks the post exists and, if a
non-null `category_id` is provided, that the category exists; then updates. -/
def updatePost (s : Store) (inp : UpdatePostInput) (now : Nat) :
    Except String (Post × Store) :=
  match s.posts.find? (fun q => q.id == inp.id) with
  | none => Except.error ("Post with id " ++ toString inp.id ++ " not found")
  | some cur =>
    match inp.category_id with
    | some (some cid) =>
        if !(s.categories.any (fun c => c.id == cid)) then
          Except.error ("Category with id " ++ toString cid ++ " not found")
        else
          updatePostApply s inp now cur
    | _ => updatePostApply s inp now cur

/-- `deletePost` from `src/unnamed/part_002`: requires the post to exist,
then deletes its comments, its junction rows, and finally the post itself.
Users, categories and tags are not touched. -/
def deletePost (s : Store) (id : Nat) : Except String (Bool × Store) :=
  if !(s.posts.any (fun p => p.id == id)) then
    Except.error ("Post with id " ++ toString id ++ " not found")
  else
    Except.ok (true,
      { s with
        comments := s.comments.filter (fun c => !(c.post_id == id))
        postTags := s.postTags.filter (fun pt => !(pt.post_id == id))
        posts := s.posts.filter (fun p => !(p.id == id)) })

/-- `likePost` from `src/server/src/handlers/like_post.ts`: requires the post
to exist, then increments its `like_count` and refreshes `updated_at`. -/
def likePost (s : Store) (postId : Nat) (now : Nat) : Except String (Post × Store) :=
  match s.posts.find? (fun p => p.id == postId) with
  | none => Except.error ("Post with id " ++ toString postId ++ " not found")
  | some p =>
    Except.ok ({ p with like_count := p.like_count + 1, updated_at := now },
      { s with posts := s.posts.map (fun q =>
          if q.id == postId then { q with like_count := q.like_count + 1, updated_at := now }
          else q) })

/-- `updateUser` from `src/unnamed/part_002`: requires the user to exist,
overwrites the provided profile fields, and refreshes `updated_at`. -/
def updateUser (s : Store) (inp : UpdateUserInput) (now : Nat) :
    Except String (User × Store) :=
  match s.users.find? (fun u => u.id == inp.id) with
  | none => Except.error ("User with id " ++ toString inp.id ++ " not found")
  | some cur =>
    let f := fun u : User =>
      { u with
        username := inp.username.getD u.username
        full_name := inp.full_name.getD u.full_name
        bio := inp.bio.getD u.bio
        avatar_url := inp.avatar_url.getD u.avatar_url
        updated_at := now }
    Except.ok (f cur,
      { s with users := s.users.map (fun u => if u.id == inp.id then f u else u) })

/-- `addTagToPost` from `src/server/src/handlers/add_tag_to_post.ts`: checks
the post exists, the tag exists, and the (post, tag) pair is not already
associated; only then inserts a junction row (the table itself has no
uniqueness constraint on the pair). -/
def addTagToPost (s : Store) (inp : AddTagToPostInput) (now : Nat) :
    Except String (PostTag × Store) :=
  if !(s.posts.any (fun p => p.id == inp.post_id)) then
    Except.error ("Post with ID " ++ toString inp.post_id ++ " not found")
  else if !(s.tags.any (fun t => t.id == inp.tag_id)) then
    Except.error ("Tag with ID " ++ toString inp.tag_id ++ " not found")
  else if s.postTags.any (fun pt => pt.post_id == inp.post_id && pt.tag_id == inp.tag_id) then
    Except.error "Tag is already associated with this post"
  else
    let pt : PostTag :=
      { id := freshId (s.postTags.map (·.id))
        post_id := inp.post_id
        tag_id := inp.tag_id
        created_at := now }
    Except.ok (pt, { s with postTags := s.postTags ++ [pt] })

/-- `removeTagFromPost` from
`src/server/src/handlers/remove_tag_from_post.ts`: deletes the matching
junction rows and reports success even when none existed. -/
def removeTagFromPost (s : Store) (inp : AddTagToPostInput) : Bool × Store :=
  (true, { s with postTags := s.postTags.filter (fun pt =>
      !(pt.post_id == inp.post_id && pt.tag_id == inp.tag_id)) })

/-- The insert part of `createComment`: `parent_id` is stored through
JavaScript `input.parent_id || null` (so a parent id of 0 becomes null),
`author_website` through `input.author_website || null`, and `is_approved` is
always false. -/
def createCommentInsert (s : Store) (inp : CreateCommentInput) (now : Nat) :
    Except String (Comment × Store) :=
  let c : Comment :=
    { id := freshId (s.comments.map (·.id))
      content := inp.content
      author_name := inp.author_name
      author_email := inp.author_email
      author_website := orNull inp.author_website
      post_id := inp.post_id
      parent_id := orNullNat inp.parent_id
      is_approved := false
      created_at := now
      updated_at := now }
  Except.ok (c, { s with comments := s.comments ++ [c] })

/-- `createComment` from `src/server/src/handlers/create_comment.ts`: checks
the post exists; when `parent_id` is truthy (the source guard is the
JavaScript `if (input.parent_id)`, so a parent id of 0 skips the check), the
parent comment must exist and belong to the same post. The inserted comment
always has `is_approved := false`. -/
def createComment (s : Store) (inp : CreateCommentInput) (now : Nat) :
    Except String (Comment × Store) :=
  if !(s.posts.any (fun p => p.id == inp.post_id)) then
    Except.error ("Post with id " ++ toString inp.post_id ++ " not found")
  else
    match inp.parent_id with
    | some p =>
        if p ≠ 0 then
          match s.comments.find? (fun c => c.id == p) with
          | none => Except.error ("Parent comment with id " ++ toString p ++ " not found")
          | some parent =>
              if parent.post_id ≠ inp.post_id then
                Except.error "Parent comment must belong to the same post"
              else
                createCommentInsert s inp now
        else
          createCommentInsert s inp now
    | none => createCommentInsert s inp now

/-- `approveComment` from `src/server/src/handlers/approve_comment.ts`: sets
`is_approved := true` (refreshing `updated_at`) on the comment with the given
id, failing when no row matched. -/
def approveComment (s : Store) (commentId : Nat) (now : Nat) :
    Except String (Comment × Store) :=
  match s.comments.find? (fun c => c.id == commentId) with
  | none => Except.error ("Comment with id " ++ toString commentId ++ " not found")
  | some c =>
    Except.ok ({ c with is_approved := true, updated_at := now },
      { s with comments := s.comments.map (fun d =>
          if d.id == commentId then { d with is_approved := true, updated_at := now }
          else d) })

/-- `getPostById` from `src/server/src/handlers/get_post_by_id.ts`: fetches
the post, increments the stored `view_count` (writing the fetched value plus
one), and returns the fetched row with the incremented count. `updated_at` is
not touched. Returns `none` leaving the store unchanged when no post has the
id. -/
def getPostById (s : Store) (id : Nat) : Option Post × Store :=
  match s.posts.find? (fun p => p.id == id) with
  | none => (none, s)
  | some p =>
    (some { p with view_count := p.view_count + 1 },
      { s with posts := s.posts.map (fun q =>
          if q.id == id then { q with view_count := p.view_count + 1 } else q) })

/-- `getPostBySlug` from `src/unnamed/part_006`: fetches the post by slug,
increments the stored `view_count` (an in-database increment) and overwrites
the stored `updated_at` with the current time; returns the fetched row with
the incremented count (and the pre-call `updated_at`). -/
def getPostBySlug (s : Store) (slug : String) (now : Nat) : Option Post × Store :=
  match s.posts.find? (fun p => p.slug == slug) with
  | none => (none, s)
  | some p =>
    (some { p with view_count := p.view_count + 1 },
      { s with posts := s.posts.map (fun q =>
          if q.id == p.id then { q with view_count := q.view_count + 1, updated_at := now }
          else q) })

/-- `deleteReplies` from `src/server/src/handlers/delete_comment.ts`,
embedded with an explicit fuel argument standing for the recursion depth the
unbounded source recursion may use: find the direct replies of `parentId`,
recursively delete each reply's own replies, then delete all the direct
replies in one batch (the source guards the batch delete with
`replies.length > 0`). On a well-formed store any fuel of at least
`maxIds + 1` is sufficient, so `deleteComment` below instantiates it there
and computes exactly what the source recursion computes. -/
def deleteReplies : Nat → List Comment → Nat → List Comment
  | 0, cs, _ => cs
  | fuel+1, cs, parentId =>
    let replies := cs.filter (fun c => c.parent_id == some parentId)
    let cs1 := replies.foldl (fun acc r => deleteReplies fuel acc r.id) cs
    if replies.isEmpty then cs1
    else cs1.filter (fun c => !(c.parent_id == some parentId))

/-- The fuel `deleteComment` hands to `deleteReplies`: strictly more than the
largest comment id, hence strictly more than the depth of any parent chain on
a well-formed store. -/
def commentFuel (cs : List Comment) : Nat := maxIds (cs.map (·.id)) + 1

/-- `deleteComment` from `src/server/src/handlers/delete_comment.ts`: first
recursively delete all replies, then delete the comment itself; always
reports success. -/
def deleteComment (s : Store) (commentId : Nat) : Bool × Store :=
  let cs := deleteReplies (commentFuel s.comments) s.comments commentId
  (true, { s with comments := cs.filter (fun c => !(c.id == commentId)) })

/-- Instrumentation of `deleteReplies`: the list of comment-table states
observed right after each individual database delete statement the source
executes (one batch delete per recursive call that found replies). The fold
threads the same intermediate tables `deleteReplies` computes. -/
def deleteRepliesTrace : Nat → List Comment → Nat → List (List Comment)
  | 0, _, _ => []
  | fuel+1, cs, parentId =>
    let replies := cs.filter (fun c => c.parent_id == some parentId)
    let st := replies.foldl
      (fun st r => (deleteReplies fuel st.1 r.id, st.2 ++ deleteRepliesTrace fuel st.1 r.id))
      (cs, ([] : List (List Comment)))
    if replies.isEmpty then st.2
    else st.2 ++ [st.1.filter (fun c => !(c.parent_id == some parentId))]

/-- Every comment-table state reached while `deleteComment` runs: the initial
table, the state after each delete performed by `deleteReplies`, and the
state after the final delete of the target comment itself. -/
def deleteCommentTrace (cs : List Comment) (commentId : Nat) : List (List Comment) :=
  cs :: deleteRepliesTrace (commentFuel cs) cs commentId
    ++ [(deleteReplies (commentFuel cs) cs commentId).filter (fun c => !(c.id == commentId))]

/-- `ReachN cs n a b`: starting from id `a`, following `parent_id` links of
comments in `cs` upward `n` times reaches id `b`. `ReachN cs n c.id root`
for some `n` is exactly "comment `c` lies in the subtree rooted at `root`". -/
inductive ReachN (cs : List Comment) : Nat → Nat → Nat → Prop
  | refl (a : Nat) : ReachN cs 0 a a
  | step {n b q : Nat} (c : Comment) (hc : c ∈ cs) (hq : c.parent_id = some q)
      (h : ReachN cs n q b) : ReachN cs (n+1) c.id b

/-- Id `a` is in the subtree rooted at id `b` (possibly `a = b`). -/
def Reaches (cs : List Comment) (a b : Nat) : Prop := ∃ n, ReachN cs n a b

/-- Id `a` is a strict descendant of id `b`: at least one parent step. -/
def ReachesPlus (cs : List Comment) (a b : Nat) : Prop := ∃ n, ReachN cs (n+1) a b

/-- A comment's parent id, when present, is strictly smaller than its own id
(serial keys hand out increasing ids and `createComment` requires the parent
to exist already, so every store the application builds satisfies this). -/
def parentLT (c : Comment) : Bool :=
  match c.parent_id with
  | some q => decide (q < c.id)
  | none => true

/-- Well-formedness of the parent links of a comment table. -/
def ParentsLT (cs : List Comment) : Prop := ∀ c ∈ cs, parentLT c = true

/-- Comment ids are pairwise distinct (primary key). -/
def NodupIds (cs : List Comment) : Prop := (cs.map (·.id)).Nodup

instance decNodupIds (cs : List Comment) : Decidable (NodupIds cs) := by
  unfold NodupIds
  exact List.nodupDecidable _

instance decParentsLT (cs : List Comment) : Decidable (ParentsLT cs) :=
  inferInstanceAs (Decidable (∀ c ∈ cs, parentLT c = true))

/-- `Closed cs S`: the rows of `cs` missing from `S` are closed under taking
descendants; equivalently, no comment was removed before its descendants. -/
def Closed (cs S : List Comment) : Prop :=
  ∀ y, y ∈ cs → y ∉ S → ∀ x, x ∈ cs → ReachesPlus cs x.id y.id → x ∉ S

/-- The membership characterisation of `deleteReplies` at a given fuel: on a
well-formed table with ids bounded by `fuel + parentId`, it removes exactly
the strict descendants of `parentId`. Stated as a definition so the fuel
induction can pass it to the lemmas about the fold inside `deleteReplies`. -/
def CharAt (k : Nat) : Prop :=
  ∀ (cs : List Comment) (p : Nat), NodupIds cs → ParentsLT cs →
    maxIds (cs.map (·.id)) ≤ k + p →
    ∀ x, x ∈ deleteReplies k cs p ↔ x ∈ cs ∧ ¬ ReachesPlus cs x.id p

/-- One request against the store: every mutating procedure of the tRPC
router that is embedded in this development. -/
inductive Op
  | opCreateUser (inp : CreateUserInput)
  | opUpdateUser (inp : UpdateUserInput)
  | opCreateCategory (inp : CreateCategoryInput)
  | opCreateTag (inp : CreateTagInput)
  | opCreatePost (inp : CreatePostInput)
  | opUpdatePost (inp : UpdatePostInput)
  | opDeletePost (id : Nat)
  | opLikePost (id : Nat)
  | opAddTagToPost (inp : AddTagToPostInput)
  | opRemoveTagFromPost (inp : AddTagToPostInput)
  | opCreateComment (inp : CreateCommentInput)
  | opApproveComment (id : Nat)
  | opDeleteComment (id : Nat)
  | opGetPostById (id : Nat)
  | opGetPostBySlug (slug : String)
deriving DecidableEq, Repr

/-- The store a fallible handler leaves behind: the successor store on
success, the unchanged input store when it throws. -/
def afterOp (s : Store) (r : Except String (α × Store)) : Store :=
  match r with
  | Except.ok x => x.2
  | Except.error _ => s

/-- The store an operation leaves behind: the successor store on success, the
unchanged store when the handler throws (every handler validates before it
writes, so a thrown error leaves no partial write). -/
def stepStore (op : Op) (now : Nat) (s : Store) : Store :=
  match op with
  | Op.opCreateUser inp => afterOp s (createUser s inp now)
  | Op.opUpdateUser inp => afterOp s (updateUser s inp now)
  | Op.opCreateCategory inp => afterOp s (createCategory s inp now)
  | Op.opCreateTag inp => afterOp s (createTag s inp now)
  | Op.opCreatePost inp => afterOp s (createPost s inp now)
  | Op.opUpdatePost inp => afterOp s (updatePost s inp now)
  | Op.opDeletePost id => afterOp s (deletePost s id)
  | Op.opLikePost id => afterOp s (likePost s id now)
  | Op.opAddTagToPost inp => afterOp s (addTagToPost s inp now)
  | Op.opRemoveTagFromPost inp => (removeTagFromPost s inp).2
  | Op.opCreateComment inp => afterOp s (createComment s inp now)
  | Op.opApproveComment id => afterOp s (approveComment s id now)
  | Op.opDeleteComment id => (deleteComment s id).2
  | Op.opGetPostById id => (getPostById s id).2
  | Op.opGetPostBySlug slug => (getPostBySlug s slug now).2

/-- Sample comment row used by the concrete scenarios below. -/
def sampleComment (id : Nat) (parent : Option Nat) (post : Nat) : Comment :=
  { id := id
    content := "body"
    author_name := "ada"
    author_email := "ada@mail.test"
    author_website := none
    post_id := post
    parent_id := parent
    is_approved := false
    created_at := 0
    updated_at := 0 }

/-- A threaded scenario: on post 1, root comment 1 with children 2 and 3,
grandchild 4 under 2, great-grandchild 5 under 4, plus an independent root 6;
comment 7 is a root on post 2. -/
def commentTree : List Comment :=
  [sampleComment 1 none 1, sampleComment 2 (some 1) 1, sampleComment 3 (some 1) 1,
   sampleComment 4 (some 2) 1, sampleComment 5 (some 4) 1,
   sampleComment 6 none 1, sampleComment 7 none 2]

/-- Store holding the threaded comment scenario. -/
def treeStore : Store :=
  { users := [], categories := [], posts := [], tags := [], postTags := []
    comments := commentTree }

/-- A comment's parent, when it has one, is present in the table. Stated as a
boolean so concrete stores can be checked by evaluation. Every store the
application can build satisfies it: `createComment` requires the parent to
exist and `deleteComment` removes whole subtrees. -/
def parentPresent (cs : List Comment) (c : Comment) : Bool :=
  match c.parent_id with
  | some q => cs.any (fun d => d.id == q)
  | none => true

/-- Sample user row used by the concrete scenarios below. -/
def sampleUser : User :=
  { id := 1
    email := "ada@mail.test"
    username := "ada"
    password_hash := "hash"
    full_name := "Ada"
    bio := none
    avatar_url := none
    is_verified := false
    created_at := 0
    updated_at := 0 }

/-- Sample tag row used by the concrete scenarios below. -/
def sampleTag : Tag :=
  { id := 1
    name := "news"
    slug := "news"
    created_at := 0 }

/-- Sample draft post (id 1, slug "hello", five views, never published). -/
def draftPost : Post :=
  { id := 1
    title := "Hello"
    slug := "hello"
    content := "world"
    excerpt := none
    featured_image_url := none
    media_type := MediaType.text
    media_url := none
    status := PostStatus.draft
    published_at := none
    author_id := 1
    category_id := none
    view_count := 5
    like_count := 0
    created_at := 0
    updated_at := 0 }

/-- Store holding the single draft post. -/
def draftStore : Store :=
  { users := [sampleUser], categories := [], posts := [draftPost], tags := []
    postTags := [], comments := [] }

/-- An `updatePost` input that only changes the status of post 1. -/
def statusUpdate (st : PostStatus) : UpdatePostInput :=
  { id := 1, title := none, slug := none, content := none, excerpt := none
    featured_image_url := none, media_type := none, media_url := none
    status := some st, category_id := none }

/-- `draftStore` after publishing post 1 at time 10. -/
def pubStore1 : Store := stepStore (Op.opUpdatePost (statusUpdate PostStatus.published)) 10 draftStore

/-- `pubStore1` after moving post 1 back to draft at time 20. -/
def pubStore2 : Store := stepStore (Op.opUpdatePost (statusUpdate PostStatus.draft)) 20 pubStore1

/-- `pubStore2` after publishing post 1 again at time 30. -/
def pubStore3 : Store := stepStore (Op.opUpdatePost (statusUpdate PostStatus.published)) 30 pubStore2

/-- The row `updatePost` produces when publishing `draftPost` at time 10. -/
def pubPost1 : Post := applyPostUpdate (statusUpdate PostStatus.published) 10 true draftPost

/-- A `createPost` input for a fresh published post by author 1. -/
def publishInput : CreatePostInput :=
  { title := "Fresh"
    slug := "fresh"
    content := "body"
    excerpt := none
    featured_image_url := none
    media_type := MediaType.text
    media_url := none
    status := PostStatus.published
    category_id := none
    author_id := 1 }

/-- Store holding only `sampleUser`. -/
def userStore : Store :=
  { users := [sampleUser], categories := [], posts := [], tags := []
    postTags := [], comments := [] }

/-- The row `createPost` inserts for `publishInput` into `userStore` at 10. -/
def freshPost : Post :=
  { id := 1
    title := "Fresh"
    slug := "fresh"
    content := "body"
    excerpt := none
    featured_image_url := none
    media_type := MediaType.text
    media_url := none
    status := PostStatus.published
    published_at := some 10
    author_id := 1
    category_id := none
    view_count := 0
    like_count := 0
    created_at := 10
    updated_at := 10 }

/-- `userStore` with `freshPost` inserted. -/
def freshStore : Store := { userStore with posts := [freshPost] }

/-- Store for the cross-post parent scenario: post 1 exists, while comment 5
belongs to post 2. -/
def crossStore : Store :=
  { users := [], categories := [], posts := [draftPost], tags := []
    postTags := [], comments := [sampleComment 5 none 2] }

/-- `createComment` input answering comment 5 but filed under post 1. -/
def crossInput : CreateCommentInput :=
  { content := "hi"
    author_name := "ada"
    author_email := "ada@mail.test"
    author_website := none
    post_id := 1
    parent_id := some 5 }

/-- Store with post 1 and tag 1, not yet associated. -/
def tagStore : Store :=
  { users := [], categories := [], posts := [draftPost], tags := [sampleTag]
    postTags := [], comments := [] }

/-- `createUser` input for Ada. -/
def adaInput : CreateUserInput :=
  { email := "ada@mail.test"
    username := "ada"
    full_name := "Ada"
    password := "password1"
    bio := none
    avatar_url := none }

/-- `createUser` input reusing Ada's email under a different username. -/
def bobInput : CreateUserInput :=
  { email := "ada@mail.test"
    username := "bob"
    full_name := "Bob"
    password := "password2"
    bio := none
    avatar_url := none }

/-- The user row `createUser` inserts for `adaInput` into the empty store. -/
def adaUser : User :=
  { id := 1
    email := "ada@mail.test"
    username := "ada"
    password_hash := hashPassword "password1"
    full_name := "Ada"
    bio := none
    avatar_url := none
    is_verified := false
    created_at := 3
    updated_at := 3 }

/-- The empty store. -/
def emptyStore : Store :=
  { users := [], categories := [], posts := [], tags := [], postTags := [], comments := [] }

/-- `createCategory` input for the tech category. -/
def techInput : CreateCategoryInput :=
  { name := "Tech", slug := "tech", description := none, color := "#6366f1" }

/-- `createCategory` input reusing the tech slug under a different name. -/
def techNewsInput : CreateCategoryInput :=
  { name := "Tech News", slug := "tech", description := none, color := "#10b981" }

/-- The category row `createCategory` inserts for `techInput`. -/
def techCategory : Category :=
  { id := 1, name := "Tech", slug := "tech", description := none
    color := "#6366f1", created_at := 3 }

/-- `createComment` input for a root comment on post 1. -/
def rootCommentInput : CreateCommentInput :=
  { content := "hi"
    author_name := "ada"
    author_email := "ada@mail.test"
    author_website := none
    post_id := 1
    parent_id := none }

/-- Store with post 1 and no comments. -/
def postOnlyStore : Store :=
  { users := [], categories := [], posts := [draftPost], tags := []
    postTags := [], comments := [] }

/-- `sampleComment` 2 with its approval flag set. -/
def approvedComment : Comment := { sampleComment 2 none 1 with is_approved := true }

/-- Store holding root comment 1 and the approved root comment 2. -/
def approvedStore : Store :=
  { users := [], categories := [], posts := [], tags := [], postTags := []
    comments := [sampleComment 1 none 1, approvedComment] }

/-- The row `createComment` inserts for `rootCommentInput` into
`postOnlyStore` at time 9. -/
def rootComment : Comment :=
  { id := 1
    content := "hi"
    author_name := "ada"
    author_email := "ada@mail.test"
    author_website := none
    post_id := 1
    parent_id := none
    is_approved := false
    created_at := 9
    updated_at := 9 }

/-- The (post 1, tag 1) association input. -/
def pairInput : AddTagToPostInput := { post_id := 1, tag_id := 1 }

/-- Store exercising the `deletePost` cascade: post 1 with a junction row and
a comment, plus a comment that belongs to post 2. -/
def cascadeStore : Store :=
  { users := [sampleUser]
    categories := []
    posts := [draftPost]
    tags := [sampleTag]
    postTags := [{ id := 1, post_id := 1, tag_id := 1, created_at := 0 }]
    comments := [sampleComment 1 none 1, sampleComment 2 none 2] }

/-! Helper lemmas. -/

theorem le_maxIds {a : Nat} : ∀ {l : List Nat}, a ∈ l → a ≤ maxIds l := by
  intro l
  induction l with
  | nil => intro h; cases h
  | cons b t ih =>
    intro h
    rcases List.mem_cons.mp h with h | h
    · subst h; exact Nat.le_max_left _ _
    · exact Nat.le_trans (ih h) (Nat.le_max_right _ _)

theorem maxIds_le {m : Nat} : ∀ {l : List Nat}, (∀ a ∈ l, a ≤ m) → maxIds l ≤ m := by
  intro l
  induction l with
  | nil => intro _; exact Nat.zero_le m
  | cons b t ih =>
    intro h
    exact Nat.max_le.mpr ⟨h b (List.mem_cons_self b t), ih fun a ha => h a (List.mem_cons_of_mem b ha)⟩

theorem maxIds_subset {l l' : List Nat} (h : l ⊆ l') : maxIds l ≤ maxIds l' :=
  maxIds_le fun a ha => le_maxIds (h ha)

theorem foldl_sublist {β : Type} (f : List Comment → β → List Comment)
    (hf : ∀ a b, List.Sublist (f a b) a) :
    ∀ (l : List β) (acc : List Comment), List.Sublist (List.foldl f acc l) acc := by
  intro l
  induction l with
  | nil => intro acc; exact List.Sublist.refl acc
  | cons b t ih => intro acc; exact (ih (f acc b)).trans (hf acc b)

/-- `deleteReplies` only removes rows: its result is a sublist of its input. -/
theorem deleteReplies_sublist :
    ∀ (fuel : Nat) (cs : List Comment) (p : Nat),
      List.Sublist (deleteReplies fuel cs p) cs := by
  intro fuel
  induction fuel with
  | zero => intro cs p; exact List.Sublist.refl cs
  | succ k ih =>
    intro cs p
    show List.Sublist
      (if (cs.filter (fun c => c.parent_id == some p)).isEmpty then
        (cs.filter (fun c => c.parent_id == some p)).foldl
          (fun acc r => deleteReplies k acc r.id) cs
      else
        ((cs.filter (fun c => c.parent_id == some p)).foldl
          (fun acc r => deleteReplies k acc r.id) cs).filter
          (fun c => !(c.parent_id == some p))) cs
    have hfold : List.Sublist
        ((cs.filter (fun c => c.parent_id == some p)).foldl
          (fun acc r => deleteReplies k acc r.id) cs) cs :=
      foldl_sublist (fun acc (r : Comment) => deleteReplies k acc r.id)
        (fun a r => ih a r.id) _ cs
    split
    · exact hfold
    · exact (List.filter_sublist _).trans hfold

theorem ReachN.mono {cs cs' : List Comment} (hsub : cs ⊆ cs') :
    ∀ {n a b}, ReachN cs n a b → ReachN cs' n a b := by
  intro n a b h
  induction h with
  | refl a => exact ReachN.refl a
  | step c hc hq _ ih => exact ReachN.step c (hsub hc) hq ih

theorem ReachN.trans {cs : List Comment} {n m a b d : Nat}
    (h1 : ReachN cs n a b) : ReachN cs m b d → ReachN cs (n + m) a d := by
  induction h1 with
  | refl a => intro h2; rw [Nat.zero_add]; exact h2
  | step c hc hq _ ih => intro h2; rw [Nat.succ_add]; exact ReachN.step c hc hq (ih h2)

/-- On a store whose parent links decrease, an `n`-step parent chain from `a`
to `b` forces `b + n ≤ a`: ids strictly decrease along the chain. -/
theorem ReachN.decrease {cs : List Comment} (hd : ParentsLT cs) :
    ∀ {n a b}, ReachN cs n a b → b + n ≤ a := by
  intro n a b h
  induction h with
  | refl a => exact Nat.le_refl a
  | step c hc hq h ih =>
    have hp := hd c hc
    unfold parentLT at hp
    rw [hq] at hp
    have hlt := of_decide_eq_true hp
    omega

/-- A nonempty parent chain can be split at its last step: its target is the
parent of some comment reached from the start by the rest of the chain. -/
theorem ReachN.snoc {cs : List Comment} :
    ∀ {n a b}, ReachN cs (n + 1) a b →
      ∃ c, c ∈ cs ∧ c.parent_id = some b ∧ ReachN cs n a c.id := by
  intro n
  induction n with
  | zero =>
    intro a b h
    cases h with
    | step c hc hq h0 =>
      cases h0
      exact ⟨c, hc, hq, ReachN.refl c.id⟩
  | succ m ih =>
    intro a b h
    cases h with
    | step c hc hq h' =>
      obtain ⟨d, hdmem, hdp, hr⟩ := ih h'
      exact ⟨d, hdmem, hdp, ReachN.step c hc hq hr⟩

theorem nodupIds_inj {cs : List Comment} (hn : NodupIds cs) {x y : Comment}
    (hx : x ∈ cs) (hy : y ∈ cs) (h : x.id = y.id) : x = y :=
  List.inj_on_of_nodup_map hn hx hy h

theorem reachesPlus_trans {cs : List Comment} {a b d : Nat}
    (h1 : ReachesPlus cs a b) (h2 : ReachesPlus cs b d) : ReachesPlus cs a d := by
  obtain ⟨n, h1⟩ := h1
  obtain ⟨m, h2⟩ := h2
  refine ⟨n + (m + 1), ?_⟩
  have h3 := h1.trans h2
  have he : n + 1 + (m + 1) = n + (m + 1) + 1 := by omega
  rw [he] at h3
  exact h3

/-- A single parent step is a nonempty chain. -/
theorem reachesPlus_of_parent {cs : List Comment} {c : Comment} {q : Nat}
    (hc : c ∈ cs) (hq : c.parent_id = some q) : ReachesPlus cs c.id q :=
  ⟨0, ReachN.step c hc hq (ReachN.refl q)⟩

theorem reachesPlus_mono {cs cs' : List Comment} (hsub : cs ⊆ cs') {a b : Nat}
    (h : ReachesPlus cs a b) : ReachesPlus cs' a b := by
  obtain ⟨n, h⟩ := h
  exact ⟨n, h.mono hsub⟩

theorem reaches_iff {cs : List Comment} {a b : Nat} :
    Reaches cs a b ↔ a = b ∨ ReachesPlus cs a b := by
  constructor
  · rintro ⟨n, h⟩
    match n, h with
    | 0, h => cases h; exact Or.inl rfl
    | m + 1, h => exact Or.inr ⟨m, h⟩
  · rintro (rfl | ⟨n, h⟩)
    · exact ⟨0, ReachN.refl a⟩
    · exact ⟨n + 1, h⟩

/-- A set of survivors characterised by a removal predicate that propagates
down parent chains is closed. -/
theorem closed_of_removed {cs S : List Comment} (P : Nat → Prop)
    (htrans : ∀ a b, ReachesPlus cs a b → P b → P a)
    (hchar : ∀ x, x ∈ S ↔ x ∈ cs ∧ ¬ P x.id) : Closed cs S := by
  intro y hy hyS x _ hxy hxS
  have hPy : P y.id := by
    by_contra hPy
    exact hyS (hchar y |>.mpr ⟨hy, hPy⟩)
  exact ((hchar x |>.mp hxS).2) (htrans _ _ hxy hPy)

/-- If the removed part of `acc` is descendant-closed, any parent chain of
`cs` starting at a surviving comment can be replayed inside `acc`. -/
theorem reachN_transfer {cs acc : List Comment}
    (hchild : ∀ d, d ∈ cs → d ∉ acc → ∀ c, c ∈ cs → c.parent_id = some d.id → c ∉ acc) :
    ∀ {n a b}, ReachN cs n a b →
      (∃ c, c ∈ cs ∧ c.id = a ∧ c ∉ acc) ∨ ReachN acc n a b := by
  intro n a b h
  induction h with
  | refl a => exact Or.inr (ReachN.refl a)
  | step c hc hq h ih =>
    rcases ih with ⟨d, hdmem, hdid, hdacc⟩ | hr
    · by_cases hcacc : c ∈ acc
      · subst hdid
        exact Or.inl ⟨c, hc, rfl, hchild d hdmem hdacc c hc hq⟩
      · exact Or.inl ⟨c, hc, rfl, hcacc⟩
    · by_cases hcacc : c ∈ acc
      · exact Or.inr (ReachN.step c hcacc hq hr)
      · exact Or.inl ⟨c, hc, rfl, hcacc⟩

/-- With distinct ids, a chain of `cs` starting at a comment that survives in
`acc` transfers to `acc` wholesale. -/
theorem reachN_transfer_mem {cs acc : List Comment} (hn : NodupIds cs)
    (hchild : ∀ d, d ∈ cs → d ∉ acc → ∀ c, c ∈ cs → c.parent_id = some d.id → c ∉ acc)
    {x : Comment} (hx : x ∈ cs) (hxacc : x ∈ acc) {n b : Nat}
    (h : ReachN cs n x.id b) : ReachN acc n x.id b := by
  rcases reachN_transfer hchild h with ⟨c, hcmem, hcid, hcacc⟩ | hr
  · cases nodupIds_inj hn hcmem hx hcid
    exact absurd hxacc hcacc
  · exact hr

theorem parentLT_lt {c : Comment} {q : Nat} (h : parentLT c = true)
    (hq : c.parent_id = some q) : q < c.id := by
  unfold parentLT at h
  rw [hq] at h
  exact of_decide_eq_true h

theorem mem_filter_parent {cs : List Comment} {p : Nat} {r : Comment} :
    r ∈ cs.filter (fun c => c.parent_id == some p) ↔ r ∈ cs ∧ r.parent_id = some p := by
  rw [List.mem_filter]
  simp

/-- A survivor set characterised by an arbitrary family of removal roots is
closed: removal propagates down to all descendants. -/
theorem closed_of_char {cs acc : List Comment} {D : Comment → Prop}
    (hchar : ∀ x, x ∈ acc ↔ x ∈ cs ∧ ¬ ∃ r, D r ∧ ReachesPlus cs x.id r.id) :
    Closed cs acc := by
  refine closed_of_removed (fun a => ∃ r, D r ∧ ReachesPlus cs a r.id) ?_ hchar
  rintro a b hab ⟨r, hD, hbr⟩
  exact ⟨r, hD, reachesPlus_trans hab hbr⟩

/-- Children of a removed comment are removed as well, for survivor sets
characterised by removal roots. -/
theorem child_closed_of_char {cs acc : List Comment} {D : Comment → Prop}
    (hchar : ∀ x, x ∈ acc ↔ x ∈ cs ∧ ¬ ∃ r, D r ∧ ReachesPlus cs x.id r.id) :
    ∀ d, d ∈ cs → d ∉ acc → ∀ c, c ∈ cs → c.parent_id = some d.id → c ∉ acc := by
  intro d hd hdacc c hc hq hcacc
  have hrem : ∃ r, D r ∧ ReachesPlus cs d.id r.id := by
    by_contra h
    exact hdacc ((hchar d).mpr ⟨hd, h⟩)
  obtain ⟨r, hD, hdr⟩ := hrem
  exact ((hchar c).mp hcacc).2
    ⟨r, hD, reachesPlus_trans (reachesPlus_of_parent hc hq) hdr⟩

/-- One iteration of the reply loop: deleting the subtree of one child `r` of
`p` extends the removed set by exactly the strict descendants of `r`. -/
theorem deleteReplies_step_char {k : Nat} (ihk : CharAt k)
    {cs : List Comment} {p : Nat} (hn : NodupIds cs) (hd : ParentsLT cs)
    (hk : maxIds (cs.map (·.id)) ≤ (k + 1) + p)
    {r : Comment} (hr : r ∈ cs) (hrp : r.parent_id = some p)
    {acc : List Comment} {D : Comment → Prop}
    (hacc : List.Sublist acc cs)
    (hchar : ∀ x, x ∈ acc ↔ x ∈ cs ∧ ¬ ∃ q, D q ∧ ReachesPlus cs x.id q.id) :
    List.Sublist (deleteReplies k acc r.id) cs ∧
    (∀ x, x ∈ deleteReplies k acc r.id ↔
      x ∈ cs ∧ ¬ ∃ q, (D q ∨ q = r) ∧ ReachesPlus cs x.id q.id) := by
  have hsubset : acc ⊆ cs := hacc.subset
  have hnacc : NodupIds acc := hn.sublist (hacc.map (·.id))
  have hdacc : ParentsLT acc := fun c hc => hd c (hsubset hc)
  have hplt : p < r.id := parentLT_lt (hd r hr) hrp
  have hkacc : maxIds (acc.map (·.id)) ≤ k + r.id := by
    have h1 : maxIds (acc.map (·.id)) ≤ maxIds (cs.map (·.id)) :=
      maxIds_subset fun a ha => by
        obtain ⟨c, hc, rfl⟩ := List.mem_map.mp ha
        exact List.mem_map_of_mem _ (hsubset hc)
    omega
  have hchar' := ihk acc r.id hnacc hdacc hkacc
  refine ⟨(deleteReplies_sublist k acc r.id).trans hacc, fun x => ?_⟩
  rw [hchar' x, hchar x]
  constructor
  · rintro ⟨⟨hxcs, hnotD⟩, hnotacc⟩
    refine ⟨hxcs, ?_⟩
    rintro ⟨q, hDor, hrq⟩
    rcases hDor with hD | rfl
    · exact hnotD ⟨q, hD, hrq⟩
    · have hxacc : x ∈ acc := (hchar x).mpr ⟨hxcs, hnotD⟩
      obtain ⟨n, hch⟩ := hrq
      exact hnotacc
        ⟨n, reachN_transfer_mem hn (child_closed_of_char hchar) hxcs hxacc hch⟩
  · rintro ⟨hxcs, hnot⟩
    refine ⟨⟨hxcs, ?_⟩, ?_⟩
    · rintro ⟨q, hD, hrq⟩
      exact hnot ⟨q, Or.inl hD, hrq⟩
    · intro hracc
      exact hnot ⟨r, Or.inr rfl, reachesPlus_mono hsubset hracc⟩

/-- The reply loop of `deleteReplies`: folding the one-child deletion over a
suffix `todo` of the reply list removes exactly the strict descendants of the
processed children, on top of the already-removed set `D`. -/
theorem deleteReplies_foldl_char {k : Nat} (ihk : CharAt k)
    {cs : List Comment} {p : Nat} (hn : NodupIds cs) (hd : ParentsLT cs)
    (hk : maxIds (cs.map (·.id)) ≤ (k + 1) + p) :
    ∀ (todo acc : List Comment) (D : Comment → Prop),
      (∀ r ∈ todo, r ∈ cs ∧ r.parent_id = some p) →
      List.Sublist acc cs →
      (∀ x, x ∈ acc ↔ x ∈ cs ∧ ¬ ∃ q, D q ∧ ReachesPlus cs x.id q.id) →
      List.Sublist (List.foldl (fun a r => deleteReplies k a r.id) acc todo) cs ∧
      (∀ x, x ∈ List.foldl (fun a r => deleteReplies k a r.id) acc todo ↔
        x ∈ cs ∧ ¬ ∃ q, (D q ∨ q ∈ todo) ∧ ReachesPlus cs x.id q.id) := by
  intro todo
  induction todo with
  | nil =>
    intro acc D htodo hacc hchar
    refine ⟨hacc, fun x => ?_⟩
    rw [List.foldl_nil, hchar x]
    simp
  | cons r rest ih =>
    intro acc D htodo hacc hchar
    obtain ⟨hr, hrp⟩ := htodo r (List.mem_cons_self r rest)
    obtain ⟨hsub', hchar'⟩ := deleteReplies_step_char ihk hn hd hk hr hrp hacc hchar
    rw [List.foldl_cons]
    obtain ⟨hfsub, hfchar⟩ := ih (deleteReplies k acc r.id) (fun q => D q ∨ q = r)
      (fun q hq => htodo q (List.mem_cons_of_mem r hq)) hsub' hchar'
    refine ⟨hfsub, fun x => ?_⟩
    rw [hfchar x]
    constructor
    · rintro ⟨hx, hno⟩
      refine ⟨hx, ?_⟩
      rintro ⟨q, hcase, hrq⟩
      rcases hcase with hD | hmem
      · exact hno ⟨q, Or.inl (Or.inl hD), hrq⟩
      · rcases List.mem_cons.mp hmem with rfl | hmem'
        · exact hno ⟨q, Or.inl (Or.inr rfl), hrq⟩
        · exact hno ⟨q, Or.inr hmem', hrq⟩
    · rintro ⟨hx, hno⟩
      refine ⟨hx, ?_⟩
      rintro ⟨q, hcase, hrq⟩
      rcases hcase with (hD | rfl) | hmem
      · exact hno ⟨q, Or.inl hD, hrq⟩
      · exact hno ⟨q, Or.inr (List.mem_cons_self q rest), hrq⟩
      · exact hno ⟨q, Or.inr (List.mem_cons_of_mem r hmem), hrq⟩

theorem ReachN.zero_eq {cs : List Comment} {a b : Nat} (h : ReachN cs 0 a b) : a = b := by
  cases h
  rfl

/-- A strict descendant of `p` is either a direct child of `p` or a strict
descendant of some direct child of `p`. -/
theorem reachesPlus_split {cs : List Comment} (hn : NodupIds cs) {x : Comment} {p : Nat}
    (hx : x ∈ cs) :
    ReachesPlus cs x.id p ↔
      x.parent_id = some p ∨
        ∃ r, r ∈ cs ∧ r.parent_id = some p ∧ ReachesPlus cs x.id r.id := by
  constructor
  · rintro ⟨n, h⟩
    obtain ⟨c, hc, hcp, hr⟩ := h.snoc
    match n, hr with
    | 0, hr =>
      have hid : x.id = c.id := hr.zero_eq
      have : c = x := nodupIds_inj hn hc hx hid.symm
      subst this
      exact Or.inl hcp
    | m + 1, hr => exact Or.inr ⟨c, hc, hcp, ⟨m, hr⟩⟩
  · rintro (hpar | ⟨r, hrmem, hrpar, hxr⟩)
    · exact reachesPlus_of_parent hx hpar
    · exact reachesPlus_trans hxr (reachesPlus_of_parent hrmem hrpar)

/-- The membership characterisation of `deleteReplies`, at every fuel large
enough for the table: exactly the strict descendants of `parentId` are
removed. -/
theorem deleteReplies_char : ∀ k, CharAt k := by
  intro k
  induction k with
  | zero =>
    intro cs p hn hd hk x
    show x ∈ cs ↔ x ∈ cs ∧ ¬ ReachesPlus cs x.id p
    constructor
    · intro hx
      refine ⟨hx, ?_⟩
      rintro ⟨n, h⟩
      have h1 : p + (n + 1) ≤ x.id := h.decrease hd
      have h2 : x.id ≤ maxIds (cs.map (·.id)) := le_maxIds (List.mem_map_of_mem _ hx)
      omega
    · exact fun h => h.1
  | succ k ihk =>
    intro cs p hn hd hk x
    simp only [deleteReplies]
    by_cases hempty : cs.filter (fun c => c.parent_id == some p) = []
    · rw [hempty]
      simp only [List.isEmpty_nil, List.foldl_nil, if_true]
      constructor
      · intro hx
        refine ⟨hx, ?_⟩
        intro hrp
        rcases (reachesPlus_split hn hx).mp hrp with hpar | ⟨r, hrmem, hrpar, _⟩
        · have : x ∈ cs.filter (fun c => c.parent_id == some p) :=
            mem_filter_parent.mpr ⟨hx, hpar⟩
          rw [hempty] at this
          cases this
        · have : r ∈ cs.filter (fun c => c.parent_id == some p) :=
            mem_filter_parent.mpr ⟨hrmem, hrpar⟩
          rw [hempty] at this
          cases this
      · exact fun h => h.1
    · obtain ⟨hfsub, hfchar⟩ := deleteReplies_foldl_char ihk hn hd hk
        (cs.filter (fun c => c.parent_id == some p)) cs (fun _ => False)
        (fun r hmem => mem_filter_parent.mp hmem) (List.Sublist.refl cs)
        (by intro y; simp)
      rw [if_neg (by simpa [List.isEmpty_iff] using hempty)]
      rw [List.mem_filter, hfchar x]
      constructor
      · rintro ⟨⟨hxcs, hno⟩, hq⟩
        refine ⟨hxcs, ?_⟩
        intro hrp
        rcases (reachesPlus_split hn hxcs).mp hrp with hpar | ⟨r, hrmem, hrpar, hxr⟩
        · rw [hpar] at hq
          simp at hq
        · exact hno ⟨r, Or.inr (mem_filter_parent.mpr ⟨hrmem, hrpar⟩), hxr⟩
      · rintro ⟨hxcs, hnrp⟩
        refine ⟨⟨hxcs, ?_⟩, ?_⟩
        · rintro ⟨q, hcase, hxq⟩
          rcases hcase with hF | hmem
          · exact hF
          · obtain ⟨hqmem, hqpar⟩ := mem_filter_parent.mp hmem
            exact hnrp (reachesPlus_trans hxq (reachesPlus_of_parent hqmem hqpar))
        · by_cases hpar : x.parent_id = some p
          · exact absurd (reachesPlus_of_parent hxcs hpar) hnrp
          · simp [hpar]

/-- Membership in the table left by `deleteComment`: exactly the rows not in
the subtree of the target survive. -/
theorem deleteComment_mem {cs : List Comment} (hn : NodupIds cs) (hd : ParentsLT cs)
    (root : Nat) :
    ∀ x, x ∈ (deleteReplies (commentFuel cs) cs root).filter (fun c => !(c.id == root)) ↔
      x ∈ cs ∧ ¬ Reaches cs x.id root := by
  intro x
  have hk : maxIds (cs.map (·.id)) ≤ commentFuel cs + root := by
    unfold commentFuel
    omega
  rw [List.mem_filter, deleteReplies_char (commentFuel cs) cs root hn hd hk x, reaches_iff]
  constructor
  · rintro ⟨⟨hxcs, hno⟩, hne⟩
    refine ⟨hxcs, ?_⟩
    rintro (hid | hrp)
    · rw [hid] at hne
      simp at hne
    · exact hno hrp
  · rintro ⟨hxcs, hno⟩
    refine ⟨⟨hxcs, fun hrp => hno (Or.inr hrp)⟩, ?_⟩
    have : x.id ≠ root := fun h => hno (Or.inl h)
    simp [this]

/-- Claim C2: on a well-formed store, `deleteComment` removes exactly the
target comment and the comments transitively reachable from it along
`parent_id` links, leaves every surviving comment unchanged and in place
(the result is a sublist of the original table), reports success, and leaves
every other table of the store untouched. -/
theorem deleteComment_removes_exactly_subtree (s : Store) (root : Nat)
    (hn : NodupIds s.comments) (hd : ParentsLT s.comments)
    (hroot : ∃ c ∈ s.comments, c.id = root) :
    List.Sublist (deleteComment s root).2.comments s.comments ∧
    (∀ c, c ∈ (deleteComment s root).2.comments ↔
      c ∈ s.comments ∧ ¬ Reaches s.comments c.id root) ∧
    (deleteComment s root).1 = true ∧
    (deleteComment s root).2.users = s.users ∧
    (deleteComment s root).2.categories = s.categories ∧
    (deleteComment s root).2.posts = s.posts ∧
    (deleteComment s root).2.tags = s.tags ∧
    (deleteComment s root).2.postTags = s.postTags :=
  ⟨(List.filter_sublist _).trans (deleteReplies_sublist _ _ _),
    deleteComment_mem hn hd root, rfl, rfl, rfl, rfl, rfl, rfl⟩

/-- Witness for C2 on the concrete comment tree: deleting comment 2 of
`treeStore` (children 4 and 5 hang below it). -/
theorem deleteComment_removes_exactly_subtree_witness :
    (NodupIds treeStore.comments ∧ ParentsLT treeStore.comments ∧
      ∃ c ∈ treeStore.comments, c.id = 2) ∧
    (List.Sublist (deleteComment treeStore 2).2.comments treeStore.comments ∧
      (∀ c, c ∈ (deleteComment treeStore 2).2.comments ↔
        c ∈ treeStore.comments ∧ ¬ Reaches treeStore.comments c.id 2) ∧
      (deleteComment treeStore 2).1 = true ∧
      (deleteComment treeStore 2).2.users = treeStore.users ∧
      (deleteComment treeStore 2).2.categories = treeStore.categories ∧
      (deleteComment treeStore 2).2.posts = treeStore.posts ∧
      (deleteComment treeStore 2).2.tags = treeStore.tags ∧
      (deleteComment treeStore 2).2.postTags = treeStore.postTags) :=
  ⟨⟨by decide, by decide, by decide⟩,
    deleteComment_removes_exactly_subtree treeStore 2 (by decide) (by decide) (by decide)⟩

/-- Closedness lifts from an intermediate table `acc` to the original table
`cs`, provided `acc` itself is closed in `cs`. -/
theorem closed_lift {cs acc S : List Comment} (hn : NodupIds cs)
    (haccsub : List.Sublist acc cs) (hacc_closed : Closed cs acc)
    (hSsub : List.Sublist S acc) (hSclosed : Closed acc S) : Closed cs S := by
  intro y hy hyS x hx hxy hxS
  by_cases hyacc : y ∈ acc
  · by_cases hxacc : x ∈ acc
    · have hchild : ∀ d, d ∈ cs → d ∉ acc →
          ∀ c, c ∈ cs → c.parent_id = some d.id → c ∉ acc := by
        intro d hd hdacc c hc hq
        exact hacc_closed d hd hdacc c hc (reachesPlus_of_parent hc hq)
      obtain ⟨n, hch⟩ := hxy
      exact hSclosed y hyacc hyS x hxacc
        ⟨n, reachN_transfer_mem hn hchild hx hxacc hch⟩ hxS
    · exact hxacc (hSsub.subset hxS)
  · exact (hacc_closed y hy hyacc x hx hxy) (hSsub.subset hxS)

/-- Every state recorded while folding the reply loop is a sublist of the
original table and closed in it. -/
theorem deleteRepliesTrace_foldl_states {k : Nat} (ihk : CharAt k)
    (ihst : ∀ (cs' : List Comment) (p' : Nat), NodupIds cs' → ParentsLT cs' →
        maxIds (cs'.map (·.id)) ≤ k + p' →
        ∀ S ∈ deleteRepliesTrace k cs' p', List.Sublist S cs' ∧ Closed cs' S)
    {cs : List Comment} {p : Nat} (hn : NodupIds cs) (hd : ParentsLT cs)
    (hk : maxIds (cs.map (·.id)) ≤ (k + 1) + p) :
    ∀ (todo acc : List Comment) (trs : List (List Comment)) (D : Comment → Prop),
      (∀ r ∈ todo, r ∈ cs ∧ r.parent_id = some p) →
      List.Sublist acc cs →
      (∀ x, x ∈ acc ↔ x ∈ cs ∧ ¬ ∃ q, D q ∧ ReachesPlus cs x.id q.id) →
      (∀ S ∈ trs, List.Sublist S cs ∧ Closed cs S) →
      ∀ S ∈ (List.foldl
          (fun st r => (deleteReplies k st.1 r.id, st.2 ++ deleteRepliesTrace k st.1 r.id))
          (acc, trs) todo).2,
        List.Sublist S cs ∧ Closed cs S := by
  intro todo
  induction todo with
  | nil =>
    intro acc trs D _ _ _ htrs S hS
    exact htrs S hS
  | cons r rest ih =>
    intro acc trs D htodo hacc hchar htrs S hS
    obtain ⟨hr, hrp⟩ := htodo r (List.mem_cons_self r rest)
    obtain ⟨hsub', hchar'⟩ := deleteReplies_step_char ihk hn hd hk hr hrp hacc hchar
    rw [List.foldl_cons] at hS
    refine ih (deleteReplies k acc r.id) (trs ++ deleteRepliesTrace k acc r.id)
      (fun q => D q ∨ q = r)
      (fun q hq => htodo q (List.mem_cons_of_mem r hq)) hsub' hchar' ?_ S hS
    intro T hT
    rcases List.mem_append.mp hT with hT | hT
    · exact htrs T hT
    · have hsubset : acc ⊆ cs := hacc.subset
      have hnacc : NodupIds acc := hn.sublist (hacc.map (·.id))
      have hdacc : ParentsLT acc := fun c hc => hd c (hsubset hc)
      have hplt : p < r.id := parentLT_lt (hd r hr) hrp
      have hkacc : maxIds (acc.map (·.id)) ≤ k + r.id := by
        have h1 : maxIds (acc.map (·.id)) ≤ maxIds (cs.map (·.id)) :=
          maxIds_subset fun a ha => by
            obtain ⟨c, hc, rfl⟩ := List.mem_map.mp ha
            exact List.mem_map_of_mem _ (hsubset hc)
        omega
      obtain ⟨hTsub, hTclosed⟩ := ihst acc r.id hnacc hdacc hkacc T hT
      exact ⟨hTsub.trans hacc,
        closed_lift hn hacc (closed_of_char hchar) hTsub hTclosed⟩

/-- Every state recorded by `deleteRepliesTrace` on a well-formed table is a
sublist of the original table and closed in it: no comment is deleted before
its descendants. -/
theorem deleteRepliesTrace_states :
    ∀ (fuel : Nat) (cs : List Comment) (p : Nat), NodupIds cs → ParentsLT cs →
      maxIds (cs.map (·.id)) ≤ fuel + p →
      ∀ S ∈ deleteRepliesTrace fuel cs p, List.Sublist S cs ∧ Closed cs S := by
  intro fuel
  induction fuel with
  | zero =>
    intro cs p _ _ _ S hS
    cases hS
  | succ k ihk =>
    intro cs p hn hd hk S hS
    simp only [deleteRepliesTrace] at hS
    by_cases hempty : cs.filter (fun c => c.parent_id == some p) = []
    · rw [hempty] at hS
      simp at hS
    · rw [if_neg (by simpa [List.isEmpty_iff] using hempty)] at hS
      have hfold := deleteRepliesTrace_foldl_states (deleteReplies_char k) ihk hn hd hk
        (cs.filter (fun c => c.parent_id == some p)) cs [] (fun _ => False)
        (fun q hq => mem_filter_parent.mp hq) (List.Sublist.refl cs)
        (by intro y; simp) (by intro T hT; cases hT)
      rcases List.mem_append.mp hS with hS1 | hS2
      · exact hfold S hS1
      · have hSeq : S = (List.foldl
            (fun st r => (deleteReplies k st.1 r.id, st.2 ++ deleteRepliesTrace k st.1 r.id))
            (cs, ([] : List (List Comment)))
            (cs.filter (fun c => c.parent_id == some p))).1.filter
            (fun c => !(c.parent_id == some p)) := by
          simpa using hS2
        have hfst : (List.foldl
            (fun st r => (deleteReplies k st.1 r.id, st.2 ++ deleteRepliesTrace k st.1 r.id))
            (cs, ([] : List (List Comment)))
            (cs.filter (fun c => c.parent_id == some p))).1
            = List.foldl (fun a r => deleteReplies k a r.id) cs
                (cs.filter (fun c => c.parent_id == some p)) := by
          generalize cs.filter (fun c => c.parent_id == some p) = todo
          suffices h : ∀ (todo acc : List Comment) (trs : List (List Comment)),
              (List.foldl
                (fun st r => (deleteReplies k st.1 r.id, st.2 ++ deleteRepliesTrace k st.1 r.id))
                (acc, trs) todo).1
              = List.foldl (fun a r => deleteReplies k a r.id) acc todo by
            exact h todo cs []
          intro todo
          induction todo with
          | nil => intro acc trs; rfl
          | cons r rest ih2 => intro acc trs; exact ih2 (deleteReplies k acc r.id) _
        have hSdel : S = deleteReplies (k + 1) cs p := by
          rw [hSeq, hfst]
          simp only [deleteReplies]
          rw [if_neg (by simpa [List.isEmpty_iff] using hempty)]
        have hchar := deleteReplies_char (k + 1) cs p hn hd hk
        rw [hSdel]
        refine ⟨deleteReplies_sublist _ _ _, ?_⟩
        refine closed_of_removed (fun a => ReachesPlus cs a p) ?_ ?_
        · exact fun a b hab hbp => reachesPlus_trans hab hbp
        · exact hchar

/-- Claim C7: throughout the deletions performed by `deleteComment`, no
comment is ever removed while it still has live children: in every
intermediate comment-table state of the traversal, a surviving comment whose
parent existed initially still has its parent present. -/
theorem deleteComment_children_before_parent (s : Store) (commentId : Nat)
    (hn : NodupIds s.comments) (hd : ParentsLT s.comments) :
    ∀ S ∈ deleteCommentTrace s.comments commentId, ∀ x ∈ S, ∀ q,
      x.parent_id = some q → (∃ y ∈ s.comments, y.id = q) → ∃ y ∈ S, y.id = q := by
  have hstates : ∀ S ∈ deleteCommentTrace s.comments commentId,
      List.Sublist S s.comments ∧ Closed s.comments S := by
    intro S hS
    unfold deleteCommentTrace at hS
    rcases List.mem_cons.mp hS with rfl | hS'
    · exact ⟨List.Sublist.refl _, fun y hy hyS => absurd hy hyS⟩
    · rcases List.mem_append.mp hS' with hS1 | hS2
      · refine deleteRepliesTrace_states (commentFuel s.comments) s.comments commentId
          hn hd ?_ S hS1
        unfold commentFuel
        omega
      · have hSeq : S = (deleteReplies (commentFuel s.comments) s.comments
            commentId).filter (fun c => !(c.id == commentId)) := by
          simpa using hS2
        rw [hSeq]
        refine ⟨(List.filter_sublist _).trans (deleteReplies_sublist _ _ _), ?_⟩
        refine closed_of_removed (fun a => Reaches s.comments a commentId) ?_ ?_
        · intro a b hab hb
          rcases reaches_iff.mp hb with rfl | hbp
          · exact reaches_iff.mpr (Or.inr hab)
          · exact reaches_iff.mpr (Or.inr (reachesPlus_trans hab hbp))
        · exact deleteComment_mem hn hd commentId
  intro S hS x hxS q hq hexists
  obtain ⟨y0, hy0, hy0id⟩ := hexists
  by_contra hno
  push_neg at hno
  have hy0S : y0 ∉ S := fun h => hno y0 h hy0id
  obtain ⟨hsub, hcl⟩ := hstates S hS
  have hxcs : x ∈ s.comments := hsub.subset hxS
  have hq' : x.parent_id = some y0.id := by rw [hy0id]; exact hq
  exact hcl y0 hy0 hy0S x hxcs (reachesPlus_of_parent hxcs hq') hxS

/-- Witness for C7 on the concrete comment tree: deleting root comment 1. -/
theorem deleteComment_children_before_parent_witness :
    (NodupIds treeStore.comments ∧ ParentsLT treeStore.comments) ∧
    (∀ S ∈ deleteCommentTrace treeStore.comments 1, ∀ x ∈ S, ∀ q,
      x.parent_id = some q → (∃ y ∈ treeStore.comments, y.id = q) →
      ∃ y ∈ S, y.id = q) :=
  ⟨⟨by decide, by decide⟩,
    deleteComment_children_before_parent treeStore 1 (by decide) (by decide)⟩

/-- Claim C1 counterexample: after a `published → draft → published` sequence
of `updatePost` calls (at times 10, 20, 30) on a post first published at
time 10, the stored `published_at` is 30, not its first-set value 10 — the
second transition into `published` does re-stamp it. -/
theorem publishedAt_restamped_counterexample :
    pubStore1.posts.map (·.published_at) = [some 10] ∧
    pubStore2.posts.map (·.published_at) = [some 10] ∧
    pubStore3.posts.map (·.published_at) = [some 30] ∧
    some (30 : Nat) ≠ some (10 : Nat) :=
  ⟨rfl, rfl, rfl, by decide⟩

/-- Claim C1 (amended): `createPost` sets `published_at` to the creation time
exactly when the post is created with status `published`; `updatePost` sets
it to the current time exactly when the request sets status `published` while
the stored status is not `published` (so a `published → draft → published`
sequence re-stamps it on the second publish), and otherwise leaves the stored
value unchanged. -/
theorem publishedAt_latch_amended :
    (∀ (s : Store) (inp : CreatePostInput) (now : Nat) (p : Post) (s' : Store),
      createPost s inp now = Except.ok (p, s') →
      p.published_at = if inp.status = PostStatus.published then some now else none) ∧
    (∀ (s : Store) (inp : UpdatePostInput) (now : Nat) (cur : Post),
      s.posts.find? (fun q => q.id == inp.id) = some cur →
      ∀ (p : Post) (s' : Store), updatePost s inp now = Except.ok (p, s') →
      p.published_at =
        if inp.status = some PostStatus.published ∧ ¬ cur.status = PostStatus.published
        then some now else cur.published_at) := by
  constructor
  · intro s inp now p s' h
    unfold createPost at h
    split at h
    · cases h
    · split at h
      · split at h
        · cases h
        · unfold createPostCore at h
          split at h
          · cases h
          · obtain ⟨hp, -⟩ := Prod.mk.injEq .. ▸ Except.ok.inj h
            rw [← hp]
      · unfold createPostCore at h
        split at h
        · cases h
        · obtain ⟨hp, -⟩ := Prod.mk.injEq .. ▸ Except.ok.inj h
          rw [← hp]
  · intro s inp now cur hfind p s' h
    have happly : updatePostApply s inp now cur = Except.ok (p, s') → _ := fun ha => by
      unfold updatePostApply at ha
      obtain ⟨hp, -⟩ := Prod.mk.injEq .. ▸ Except.ok.inj ha
      exact hp
    have hfin : p = applyPostUpdate inp now
        (inp.status == some PostStatus.published && !(cur.status == PostStatus.published)) cur := by
      unfold updatePost at h
      split at h
      · next heq =>
          rw [hfind] at heq
          cases heq
      · next cur2 heq =>
          rw [hfind] at heq
          injection heq with heq2
          subst heq2
          split at h
          · split at h
            · cases h
            · exact (happly h).symm
          · exact (happly h).symm
    rw [hfin]
    unfold applyPostUpdate
    by_cases hc : inp.status = some PostStatus.published ∧ ¬ cur.status = PostStatus.published
    · have hb : (inp.status == some PostStatus.published
          && !(cur.status == PostStatus.published)) = true := by
        simp [hc.1, hc.2]
      rw [hb, if_pos hc]
      rfl
    · have hb : (inp.status == some PostStatus.published
          && !(cur.status == PostStatus.published)) = false := by
        rcases Decidable.not_and_iff_or_not.mp hc with h1 | h1
        · simp [h1]
        · have : cur.status = PostStatus.published := Decidable.not_not.mp h1
          simp [this]
      rw [hb, if_neg hc]
      rfl

/-- Witness for the amended C1: creating a published post at time 10 stamps
`published_at := some 10`, and publishing the stored draft post at time 10
stamps it as the conditional prescribes. -/
theorem publishedAt_latch_amended_witness :
    (freshPost.published_at
        = if publishInput.status = PostStatus.published then some 10 else none) ∧
    (pubPost1.published_at
        = if (statusUpdate PostStatus.published).status = some PostStatus.published
              ∧ ¬ draftPost.status = PostStatus.published
          then some 10 else draftPost.published_at) :=
  ⟨publishedAt_latch_amended.1 userStore publishInput 10 freshPost freshStore rfl,
    publishedAt_latch_amended.2 draftStore (statusUpdate PostStatus.published) 10 draftPost rfl
      pubPost1 pubStore1 rfl⟩

/-- Claim C10 counterexample: `getPostBySlug` does not leave every other
field of the fetched post unchanged — it overwrites the stored `updated_at`
with the current time (0 becomes 7 here), while incrementing `view_count`. -/
theorem getPostBySlug_touches_updated_at_counterexample :
    (getPostBySlug draftStore "hello" 7).2.posts.map (·.updated_at) = [7] ∧
    draftStore.posts.map (·.updated_at) = [0] ∧
    (7 : Nat) ≠ 0 :=
  ⟨rfl, rfl, by decide⟩

/-- Claim C10 (amended): both read operations mutate state. When the post
exists (`find?` is on the id for `getPostById`, on the slug for
`getPostBySlug`), each returns the fetched row with `view_count` incremented
by one and writes the increment back to the matching stored row;
`getPostById` changes nothing else in that row, while `getPostBySlug` also
overwrites its `updated_at` with the current time (returning the pre-call
`updated_at`). No other row and no other table is touched; when no post
matches, both return `none` and leave the store unchanged. -/
theorem view_count_increment_amended :
    (∀ (s : Store) (id : Nat) (p : Post), s.posts.find? (fun q => q.id == id) = some p →
      getPostById s id =
        (some { p with view_count := p.view_count + 1 },
          { s with posts := s.posts.map (fun q =>
              if q.id == id then { q with view_count := p.view_count + 1 } else q) })) ∧
    (∀ (s : Store) (id : Nat), s.posts.find? (fun q => q.id == id) = none →
      getPostById s id = (none, s)) ∧
    (∀ (s : Store) (slug : String) (now : Nat) (p : Post),
      s.posts.find? (fun q => q.slug == slug) = some p →
      getPostBySlug s slug now =
        (some { p with view_count := p.view_count + 1 },
          { s with posts := s.posts.map (fun q =>
              if q.id == p.id then { q with view_count := q.view_count + 1, updated_at := now }
              else q) })) ∧
    (∀ (s : Store) (slug : String) (now : Nat),
      s.posts.find? (fun q => q.slug == slug) = none →
      getPostBySlug s slug now = (none, s)) := by
  refine ⟨?_, ?_, ?_, ?_⟩
  · intro s id p hfind
    unfold getPostById
    rw [hfind]
  · intro s id hfind
    unfold getPostById
    rw [hfind]
  · intro s slug now p hfind
    unfold getPostBySlug
    rw [hfind]
  · intro s slug now hfind
    unfold getPostBySlug
    rw [hfind]

/-- Witness for the amended C10 on the stored draft post (5 views,
`updated_at` 0): both reads return it with 6 views; `getPostById` leaves the
stored `updated_at` alone while `getPostBySlug` sets it to 7. -/
theorem view_count_increment_amended_witness :
    (getPostById draftStore 1 =
      (some { draftPost with view_count := draftPost.view_count + 1 },
        { draftStore with posts := draftStore.posts.map (fun q =>
            if q.id == 1 then { q with view_count := draftPost.view_count + 1 } else q) })) ∧
    (getPostBySlug draftStore "hello" 7 =
      (some { draftPost with view_count := draftPost.view_count + 1 },
        { draftStore with posts := draftStore.posts.map (fun q =>
            if q.id == draftPost.id
            then { q with view_count := q.view_count + 1, updated_at := 7 }
            else q) })) ∧
    (getPostById draftStore 2 = (none, draftStore)) ∧
    (getPostBySlug draftStore "absent" 7 = (none, draftStore)) :=
  ⟨view_count_increment_amended.1 draftStore 1 draftPost rfl,
    (view_count_increment_amended.2.2.1 draftStore "hello" 7 draftPost rfl),
    (view_count_increment_amended.2.1 draftStore 2 rfl),
    (view_count_increment_amended.2.2.2 draftStore "absent" 7 rfl)⟩

/-- Claim C3: creating a second user with the same email (and a different
username) fails with the unique-constraint error and the user table keeps
only the first inserted row; likewise a second category with the same slug
(and a different name). -/
theorem duplicate_email_and_slug_rejected :
    (∀ (s : Store) (i1 i2 : CreateUserInput) (n1 n2 : Nat) (u : User) (s' : Store),
      i1.email = i2.email → i1.username ≠ i2.username →
      createUser s i1 n1 = Except.ok (u, s') →
      createUser s' i2 n2 = Except.error dupKeyMsg ∧ s'.users = s.users ++ [u]) ∧
    (∀ (s : Store) (i1 i2 : CreateCategoryInput) (n1 n2 : Nat) (c : Category) (s' : Store),
      i1.slug = i2.slug → i1.name ≠ i2.name →
      createCategory s i1 n1 = Except.ok (c, s') →
      createCategory s' i2 n2 = Except.error dupKeyMsg ∧
        s'.categories = s.categories ++ [c]) := by
  constructor
  · intro s i1 i2 n1 n2 u s' hemail huser h
    unfold createUser at h
    split at h
    · cases h
    · obtain ⟨hu, hs⟩ := Prod.mk.injEq .. ▸ Except.ok.inj h
      have hmem : u ∈ s'.users := by
        rw [← hs]
        simp [← hu]
      have huemail : u.email = i2.email := by
        rw [← hu, ← hemail]
      refine ⟨?_, by rw [← hs, ← hu]⟩
      unfold createUser
      rw [if_pos]
      exact List.any_eq_true.mpr ⟨u, hmem, by simp [huemail]⟩
  · intro s i1 i2 n1 n2 c s' hslug hname h
    unfold createCategory at h
    split at h
    · cases h
    · obtain ⟨hc, hs⟩ := Prod.mk.injEq .. ▸ Except.ok.inj h
      have hmem : c ∈ s'.categories := by
        rw [← hs]
        simp [← hc]
      have hcslug : c.slug = i2.slug := by
        rw [← hc, ← hslug]
      refine ⟨?_, by rw [← hs, ← hc]⟩
      unfold createCategory
      rw [if_pos]
      exact List.any_eq_true.mpr ⟨c, hmem, by simp [hcslug]⟩

/-- Witness for C3: Ada is created in the empty store at time 3; re-creating
her email under the name Bob fails, as does re-creating the tech slug. -/
theorem duplicate_email_and_slug_rejected_witness :
    (adaInput.email = bobInput.email ∧ adaInput.username ≠ bobInput.username ∧
      createUser emptyStore adaInput 3
        = Except.ok (adaUser, { emptyStore with users := [adaUser] })) ∧
    (createUser { emptyStore with users := [adaUser] } bobInput 4 = Except.error dupKeyMsg ∧
      ({ emptyStore with users := [adaUser] } : Store).users = emptyStore.users ++ [adaUser]) ∧
    (techInput.slug = techNewsInput.slug ∧ techInput.name ≠ techNewsInput.name ∧
      createCategory emptyStore techInput 3
        = Except.ok (techCategory, { emptyStore with categories := [techCategory] })) ∧
    (createCategory { emptyStore with categories := [techCategory] } techNewsInput 4
        = Except.error dupKeyMsg ∧
      ({ emptyStore with categories := [techCategory] } : Store).categories
        = emptyStore.categories ++ [techCategory]) :=
  ⟨⟨rfl, by decide, rfl⟩,
    duplicate_email_and_slug_rejected.1 emptyStore adaInput bobInput 3 4 adaUser
      { emptyStore with users := [adaUser] } rfl (by decide) rfl,
    ⟨rfl, by decide, rfl⟩,
    duplicate_email_and_slug_rejected.2 emptyStore techInput techNewsInput 3 4 techCategory
      { emptyStore with categories := [techCategory] } rfl (by decide) rfl⟩

/-- Claim C4: a `createComment` whose `parent_id` names an existing comment
that belongs to a different post fails with the mismatch error; since the
insert comes after every check, no row is written. The guard in the source is
JavaScript-truthy, so the parent id is additionally required to be nonzero
(serial ids start at 1, so every existing comment has a nonzero id). -/
theorem createComment_rejects_cross_post_parent
    (s : Store) (inp : CreateCommentInput) (now : Nat) (pid : Nat) (parent : Comment)
    (hpost : s.posts.any (fun p => p.id == inp.post_id) = true)
    (hpar : inp.parent_id = some pid)
    (hpz : pid ≠ 0)
    (hfind : s.comments.find? (fun c => c.id == pid) = some parent)
    (hdiff : parent.post_id ≠ inp.post_id) :
    createComment s inp now = Except.error "Parent comment must belong to the same post" := by
  unfold createComment
  rw [hpost, hpar]
  show (if pid ≠ 0 then _ else _) = _
  rw [if_pos hpz, hfind]
  exact if_pos hdiff

/-- Witness for C4: answering comment 5 (which lives on post 2) under post 1
is rejected with the mismatch error. -/
theorem createComment_rejects_cross_post_parent_witness :
    (crossStore.posts.any (fun p => p.id == crossInput.post_id) = true ∧
      crossInput.parent_id = some 5 ∧ (5 : Nat) ≠ 0 ∧
      crossStore.comments.find? (fun c => c.id == 5) = some (sampleComment 5 none 2) ∧
      (sampleComment 5 none 2).post_id ≠ crossInput.post_id) ∧
    createComment crossStore crossInput 9
      = Except.error "Parent comment must belong to the same post" :=
  ⟨⟨by decide, rfl, by decide, rfl, by decide⟩,
    createComment_rejects_cross_post_parent crossStore crossInput 9 5
      (sampleComment 5 none 2) (by decide) rfl (by decide) rfl (by decide)⟩

/-- Claim C5: with post and tag present and the pair not yet associated, a
first `addTagToPost` succeeds, after which the junction table holds exactly
one row for the pair; a second identical call fails with the
already-associated error (and, failing, writes nothing, so the single row
remains). -/
theorem addTagToPost_duplicate_rejected
    (s : Store) (inp : AddTagToPostInput) (now1 now2 : Nat)
    (hpost : s.posts.any (fun p => p.id == inp.post_id) = true)
    (htag : s.tags.any (fun t => t.id == inp.tag_id) = true)
    (hnone : ∀ pt ∈ s.postTags, ¬(pt.post_id = inp.post_id ∧ pt.tag_id = inp.tag_id)) :
    ∃ (pt : PostTag) (s' : Store),
      addTagToPost s inp now1 = Except.ok (pt, s') ∧
      (s'.postTags.filter
        (fun q => q.post_id == inp.post_id && q.tag_id == inp.tag_id)).length = 1 ∧
      addTagToPost s' inp now2 = Except.error "Tag is already associated with this post" := by
  have hpairs : ∀ pt ∈ s.postTags,
      (pt.post_id == inp.post_id && pt.tag_id == inp.tag_id) = false := by
    intro pt hpt
    cases hb : (pt.post_id == inp.post_id && pt.tag_id == inp.tag_id) with
    | false => rfl
    | true =>
      simp only [Bool.and_eq_true, beq_iff_eq] at hb
      exact absurd hb (hnone pt hpt)
  have hanyfalse : (s.postTags.any
      (fun pt => pt.post_id == inp.post_id && pt.tag_id == inp.tag_id)) = false := by
    cases hb : (s.postTags.any
        (fun pt => pt.post_id == inp.post_id && pt.tag_id == inp.tag_id)) with
    | false => rfl
    | true =>
      obtain ⟨pt, hpt, hp⟩ := List.any_eq_true.mp hb
      rw [hpairs pt hpt] at hp
      cases hp
  refine ⟨⟨freshId (s.postTags.map (·.id)), inp.post_id, inp.tag_id, now1⟩,
    { s with postTags := s.postTags
        ++ [⟨freshId (s.postTags.map (·.id)), inp.post_id, inp.tag_id, now1⟩] },
    ?_, ?_, ?_⟩
  · unfold addTagToPost
    rw [hpost, htag, hanyfalse]
    rfl
  · show (List.filter _ (s.postTags ++ [_])).length = 1
    rw [List.filter_append]
    rw [List.filter_eq_nil_iff.mpr (fun pt hpt => by simp [hpairs pt hpt])]
    simp
  · unfold addTagToPost
    have hpost' : ({ s with postTags := s.postTags
        ++ [⟨freshId (s.postTags.map (·.id)), inp.post_id, inp.tag_id, now1⟩] } : Store).posts.any
        (fun p => p.id == inp.post_id) = true := hpost
    have htag' : ({ s with postTags := s.postTags
        ++ [⟨freshId (s.postTags.map (·.id)), inp.post_id, inp.tag_id, now1⟩] } : Store).tags.any
        (fun t => t.id == inp.tag_id) = true := htag
    have hany' : ({ s with postTags := s.postTags
        ++ [⟨freshId (s.postTags.map (·.id)), inp.post_id, inp.tag_id, now1⟩] } : Store).postTags.any
        (fun pt => pt.post_id == inp.post_id && pt.tag_id == inp.tag_id) = true := by
      refine List.any_eq_true.mpr
        ⟨⟨freshId (s.postTags.map (·.id)), inp.post_id, inp.tag_id, now1⟩, ?_, by simp⟩
      exact List.mem_append_right _ (List.mem_singleton.mpr rfl)
    rw [hpost', htag', hany']
    rfl

/-- Witness for C5: associating tag 1 with post 1 in `tagStore` succeeds once
and is rejected the second time. -/
theorem addTagToPost_duplicate_rejected_witness :
    (tagStore.posts.any (fun p => p.id == pairInput.post_id) = true ∧
      tagStore.tags.any (fun t => t.id == pairInput.tag_id) = true ∧
      (∀ pt ∈ tagStore.postTags,
        ¬(pt.post_id = pairInput.post_id ∧ pt.tag_id = pairInput.tag_id))) ∧
    (∃ (pt : PostTag) (s' : Store),
      addTagToPost tagStore pairInput 5 = Except.ok (pt, s') ∧
      (s'.postTags.filter
        (fun q => q.post_id == pairInput.post_id && q.tag_id == pairInput.tag_id)).length = 1 ∧
      addTagToPost s' pairInput 6 = Except.error "Tag is already associated with this post") :=
  ⟨⟨by decide, by decide, by decide⟩,
    addTagToPost_duplicate_rejected tagStore pairInput 5 6 (by decide) (by decide) (by decide)⟩

/-- A comment with no children under `p` makes `deleteReplies` a no-op, at
any fuel. -/
theorem deleteReplies_no_children {cs : List Comment} {p : Nat}
    (h : ∀ c ∈ cs, ¬ c.parent_id = some p) :
    ∀ fuel, deleteReplies fuel cs p = cs := by
  intro fuel
  cases fuel with
  | zero => rfl
  | succ k =>
    have hrep : cs.filter (fun c => c.parent_id == some p) = [] :=
      List.filter_eq_nil_iff.mpr (fun c hc => by simpa using h c hc)
    show (if (cs.filter (fun c => c.parent_id == some p)).isEmpty then
        (cs.filter (fun c => c.parent_id == some p)).foldl
          (fun acc r => deleteReplies k acc r.id) cs
      else
        ((cs.filter (fun c => c.parent_id == some p)).foldl
          (fun acc r => deleteReplies k acc r.id) cs).filter
          (fun c => !(c.parent_id == some p))) = cs
    rw [hrep]
    rfl

/-- Claim C6: deleting a comment id that is absent (from a store whose parent
links are not dangling) reports success and leaves the store untouched, and
removing a (post, tag) association that is not present — including when the
post or the tag itself does not exist — reports success and leaves the store
untouched. -/
theorem absent_deletions_are_noops :
    (∀ (s : Store) (cid : Nat),
      (∀ c ∈ s.comments, c.id ≠ cid) →
      (∀ c ∈ s.comments, parentPresent s.comments c = true) →
      deleteComment s cid = (true, s)) ∧
    (∀ (s : Store) (inp : AddTagToPostInput),
      (∀ pt ∈ s.postTags, ¬(pt.post_id = inp.post_id ∧ pt.tag_id = inp.tag_id)) →
      removeTagFromPost s inp = (true, s)) := by
  constructor
  · intro s cid hid hpp
    have hnochild : ∀ c ∈ s.comments, ¬ c.parent_id = some cid := by
      intro c hc heq
      have h1 := hpp c hc
      unfold parentPresent at h1
      rw [heq] at h1
      obtain ⟨d, hd, hdq⟩ := List.any_eq_true.mp h1
      exact hid d hd (by simpa using hdq)
    show (true, { s with comments := (deleteReplies (commentFuel s.comments)
      s.comments cid).filter (fun c => !(c.id == cid)) }) = (true, s)
    rw [deleteReplies_no_children hnochild]
    rw [List.filter_eq_self.mpr (fun c hc => by simpa using hid c hc)]
  · intro s inp hnone
    show (true, { s with postTags := s.postTags.filter (fun pt =>
      !(pt.post_id == inp.post_id && pt.tag_id == inp.tag_id)) }) = (true, s)
    rw [List.filter_eq_self.mpr ?_]
    intro pt hpt
    cases hb : (pt.post_id == inp.post_id && pt.tag_id == inp.tag_id) with
    | false => rfl
    | true =>
      simp only [Bool.and_eq_true, beq_iff_eq] at hb
      exact absurd hb (hnone pt hpt)

/-- Witness for C6: comment id 99 is absent from `treeStore`, and `tagStore`
has no association for (1, 1). -/
theorem absent_deletions_are_noops_witness :
    ((∀ c ∈ treeStore.comments, c.id ≠ 99) ∧
      (∀ c ∈ treeStore.comments, parentPresent treeStore.comments c = true) ∧
      (∀ pt ∈ tagStore.postTags,
        ¬(pt.post_id = pairInput.post_id ∧ pt.tag_id = pairInput.tag_id))) ∧
    deleteComment treeStore 99 = (true, treeStore) ∧
    removeTagFromPost tagStore pairInput = (true, tagStore) :=
  ⟨⟨by decide, by decide, by decide⟩,
    absent_deletions_are_noops.1 treeStore 99 (by decide) (by decide),
    absent_deletions_are_noops.2 tagStore pairInput (by decide)⟩

/-- Claim C8: when the post exists, `deletePost` removes the post row, every
comment of the post, and every junction row of the post, leaving the users,
categories and tags tables exactly as they were; when it does not exist, it
fails with the post-not-found error (and, failing before any delete, changes
nothing). -/
theorem deletePost_cascade :
    (∀ (s : Store) (pid : Nat), (∃ p ∈ s.posts, p.id = pid) →
      deletePost s pid = Except.ok (true,
        { users := s.users
          categories := s.categories
          posts := s.posts.filter (fun p => !(p.id == pid))
          tags := s.tags
          postTags := s.postTags.filter (fun pt => !(pt.post_id == pid))
          comments := s.comments.filter (fun c => !(c.post_id == pid)) })) ∧
    (∀ (s : Store) (pid : Nat), (∀ p ∈ s.posts, p.id ≠ pid) →
      deletePost s pid = Except.error ("Post with id " ++ toString pid ++ " not found")) := by
  constructor
  · rintro s pid ⟨p0, hp0, hp0id⟩
    have hany : s.posts.any (fun p => p.id == pid) = true :=
      List.any_eq_true.mpr ⟨p0, hp0, by simp [hp0id]⟩
    unfold deletePost
    rw [hany]
    rfl
  · intro s pid hno
    have hany : s.posts.any (fun p => p.id == pid) = false := by
      cases hb : s.posts.any (fun p => p.id == pid) with
      | false => rfl
      | true =>
        obtain ⟨p0, hp0, hp⟩ := List.any_eq_true.mp hb
        exact absurd (by simpa using hp) (hno p0 hp0)
    unfold deletePost
    rw [hany]
    rfl

/-- Witness for C8 on `cascadeStore`: deleting post 1 drops its comment and
junction row but keeps the comment of post 2; deleting absent post 7 fails. -/
theorem deletePost_cascade_witness :
    ((∃ p ∈ cascadeStore.posts, p.id = 1) ∧ (∀ p ∈ cascadeStore.posts, p.id ≠ 7)) ∧
    (deletePost cascadeStore 1 = Except.ok (true,
      { users := cascadeStore.users
        categories := cascadeStore.categories
        posts := cascadeStore.posts.filter (fun p => !(p.id == 1))
        tags := cascadeStore.tags
        postTags := cascadeStore.postTags.filter (fun pt => !(pt.post_id == 1))
        comments := cascadeStore.comments.filter (fun c => !(c.post_id == 1)) })) ∧
    deletePost cascadeStore 7 = Except.error ("Post with id " ++ toString 7 ++ " not found") :=
  ⟨⟨by decide, by decide⟩,
    deletePost_cascade.1 cascadeStore 1 (by decide),
    deletePost_cascade.2 cascadeStore 7 (by decide)⟩

/-- Shape of a successful `createComment`: the new row is appended and its
approval flag is false. -/
theorem createComment_ok_shape (s : Store) (inp : CreateCommentInput) (now : Nat)
    (c : Comment) (s' : Store) (h : createComment s inp now = Except.ok (c, s')) :
    c.is_approved = false ∧ s'.comments = s.comments ++ [c] := by
  have hins : createCommentInsert s inp now = Except.ok (c, s') →
      c.is_approved = false ∧ s'.comments = s.comments ++ [c] := by
    intro hh
    unfold createCommentInsert at hh
    obtain ⟨hc, hs⟩ := Prod.mk.injEq .. ▸ Except.ok.inj hh
    exact ⟨by rw [← hc], by rw [← hs, ← hc]⟩
  unfold createComment at h
  split at h
  · cases h
  · split at h
    · split at h
      · split at h
        · cases h
        · split at h
          · cases h
          · exact hins h
      · exact hins h
    · exact hins h

/-- Claim C9: every comment inserted by `createComment` is unapproved, no
matter the input, and among all the operations of the model only
`approveComment` can turn a stored comment's approval flag on: after any
other operation, every approved comment in the store was already present
(hence already approved) before it ran. -/
theorem comment_approval_only_via_approve :
    (∀ (s : Store) (inp : CreateCommentInput) (now : Nat) (c : Comment) (s' : Store),
      createComment s inp now = Except.ok (c, s') →
      c.is_approved = false ∧ s'.comments = s.comments ++ [c]) ∧
    (∀ (op : Op) (now : Nat) (s : Store),
      (∀ id, op ≠ Op.opApproveComment id) →
      ∀ c, c ∈ (stepStore op now s).comments → c.is_approved = true → c ∈ s.comments) := by
  refine ⟨createComment_ok_shape, ?_⟩
  intro op now s hop c hc happ
  cases op with
  | opCreateUser inp =>
    have he : (stepStore (Op.opCreateUser inp) now s).comments = s.comments := by
      show (afterOp s (createUser s inp now)).comments = s.comments
      unfold createUser
      split <;> rfl
    rw [he] at hc
    exact hc
  | opUpdateUser inp =>
    have he : (stepStore (Op.opUpdateUser inp) now s).comments = s.comments := by
      show (afterOp s (updateUser s inp now)).comments = s.comments
      unfold updateUser
      split <;> rfl
    rw [he] at hc
    exact hc
  | opCreateCategory inp =>
    have he : (stepStore (Op.opCreateCategory inp) now s).comments = s.comments := by
      show (afterOp s (createCategory s inp now)).comments = s.comments
      unfold createCategory
      split <;> rfl
    rw [he] at hc
    exact hc
  | opCreateTag inp =>
    have he : (stepStore (Op.opCreateTag inp) now s).comments = s.comments := by
      show (afterOp s (createTag s inp now)).comments = s.comments
      unfold createTag
      split <;> rfl
    rw [he] at hc
    exact hc
  | opCreatePost inp =>
    have he : (stepStore (Op.opCreatePost inp) now s).comments = s.comments := by
      show (afterOp s (createPost s inp now)).comments = s.comments
      unfold createPost createPostCore
      split
      · rfl
      · split
        · split
          · rfl
          · split <;> rfl
        · split <;> rfl
    rw [he] at hc
    exact hc
  | opUpdatePost inp =>
    have he : (stepStore (Op.opUpdatePost inp) now s).comments = s.comments := by
      show (afterOp s (updatePost s inp now)).comments = s.comments
      unfold updatePost updatePostApply
      split
      · rfl
      · split
        · split <;> rfl
        · rfl
    rw [he] at hc
    exact hc
  | opDeletePost pid =>
    cases hdp : deletePost s pid with
    | error e =>
      show c ∈ s.comments
      have he : (stepStore (Op.opDeletePost pid) now s).comments = s.comments := by
        show (afterOp s (deletePost s pid)).comments = s.comments
        rw [hdp]
        rfl
      rw [he] at hc
      exact hc
    | ok x =>
      obtain ⟨b, s'⟩ := x
      have he : (stepStore (Op.opDeletePost pid) now s).comments = s'.comments := by
        show (afterOp s (deletePost s pid)).comments = s'.comments
        rw [hdp]
        rfl
      rw [he] at hc
      unfold deletePost at hdp
      split at hdp
      · cases hdp
      · obtain ⟨-, hs⟩ := Prod.mk.injEq .. ▸ Except.ok.inj hdp
        rw [← hs] at hc
        exact (List.mem_filter.mp hc).1
  | opLikePost pid =>
    have he : (stepStore (Op.opLikePost pid) now s).comments = s.comments := by
      show (afterOp s (likePost s pid now)).comments = s.comments
      unfold likePost
      split <;> rfl
    rw [he] at hc
    exact hc
  | opAddTagToPost inp =>
    have he : (stepStore (Op.opAddTagToPost inp) now s).comments = s.comments := by
      show (afterOp s (addTagToPost s inp now)).comments = s.comments
      unfold addTagToPost
      split
      · rfl
      · split
        · rfl
        · split <;> rfl
    rw [he] at hc
    exact hc
  | opRemoveTagFromPost inp =>
    exact hc
  | opCreateComment inp =>
    cases hcc : createComment s inp now with
    | error e =>
      have he : (stepStore (Op.opCreateComment inp) now s).comments = s.comments := by
        show (afterOp s (createComment s inp now)).comments = s.comments
        rw [hcc]
        rfl
      rw [he] at hc
      exact hc
    | ok x =>
      obtain ⟨c0, s'⟩ := x
      have he : (stepStore (Op.opCreateComment inp) now s).comments = s'.comments := by
        show (afterOp s (createComment s inp now)).comments = s'.comments
        rw [hcc]
        rfl
      rw [he] at hc
      obtain ⟨happr0, hsh⟩ := createComment_ok_shape s inp now c0 s' hcc
      rw [hsh] at hc
      rcases List.mem_append.mp hc with hmem | hmem
      · exact hmem
      · rw [List.mem_singleton.mp hmem] at happ
        rw [happr0] at happ
        cases happ
  | opApproveComment id =>
    exact absurd rfl (hop id)
  | opDeleteComment id =>
    have hc' : c ∈ (deleteReplies (commentFuel s.comments) s.comments id).filter
        (fun d => !(d.id == id)) := hc
    have h1 := (List.mem_filter.mp hc').1
    exact (deleteReplies_sublist _ _ _).subset h1
  | opGetPostById id =>
    have he : (stepStore (Op.opGetPostById id) now s).comments = s.comments := by
      show (getPostById s id).2.comments = s.comments
      unfold getPostById
      split <;> rfl
    rw [he] at hc
    exact hc
  | opGetPostBySlug slug =>
    have he : (stepStore (Op.opGetPostBySlug slug) now s).comments = s.comments := by
      show (getPostBySlug s slug now).2.comments = s.comments
      unfold getPostBySlug
      split <;> rfl
    rw [he] at hc
    exact hc

/-- Witness for C9: creating a root comment on post 1 yields an unapproved
row, and deleting comment 1 of `approvedStore` (an operation other than
`approveComment`) leaves the surviving approved comment 2 as a row that
already existed. -/
theorem comment_approval_only_via_approve_witness :
    (rootComment.is_approved = false ∧
      ({ postOnlyStore with comments := [rootComment] } : Store).comments
        = postOnlyStore.comments ++ [rootComment]) ∧
    approvedComment ∈ approvedStore.comments :=
  ⟨comment_approval_only_via_approve.1 postOnlyStore rootCommentInput 9
      rootComment { postOnlyStore with comments := [rootComment] } rfl,
    comment_approval_only_via_approve.2 (Op.opDeleteComment 1) 0 approvedStore
      (fun id h => nomatch h) approvedComment (by decide) rfl⟩

end Blog
